import Mathlib

/-!
Shallow embedding of the gota_study tabular data engine (Go) and proofs about it.

The embedding follows the Go sources:
* series/series.go        — Series container, Subset/Set/Compare/Order, reductions, RollingWindow
* series/type-string.go   — stringElement
* series/type-int.go      — intElement
* series/type-float.go    — floatElement
* series/type-bool.go     — boolElement
* dataframe.go            — DataFrame, New, fixColnames, joins, SetNames

Modelling conventions:
* Go `float64` is modelled by `GoFloat`: an exact rational for finite values plus
  NaN and the two signed infinities.  All float values appearing in the theorems
  below are small and exactly representable, so rational arithmetic agrees with
  IEEE double arithmetic on every evaluation performed here.  Signed zero is not
  modelled (no theorem below distinguishes +0 from -0).
* Go `int` is modelled by `Int` (no theorem below exercises 64-bit overflow).
* Go errors are modelled by `Option String` holding the error message.
* Go panics (out-of-range slice indexing inside `Series.Subset`, a non-function
  `comparando` with the `CompFunc` comparator) are outside the model: `Subset`
  reads out-of-range positions as the zero element, and `Compare` returns
  `Option` with `none` standing for the panic.
-/

namespace Gota

/-! ### Decimal rendering of naturals (Go `fmt.Sprintf("%d", n)` for `n ≥ 0`) -/

/-- One decimal digit as a character. -/
def digitChar : Nat → Char
  | 0 => '0' | 1 => '1' | 2 => '2' | 3 => '3' | 4 => '4'
  | 5 => '5' | 6 => '6' | 7 => '7' | 8 => '8' | 9 => '9'
  | _ => '?'

/-- Inverse of `digitChar` on digits (`10` marks a non-digit). -/
def digitVal : Char → Nat
  | '0' => 0 | '1' => 1 | '2' => 2 | '3' => 3 | '4' => 4
  | '5' => 5 | '6' => 6 | '7' => 7 | '8' => 8 | '9' => 9
  | _ => 10

/-- Little-endian decimal digits of `n`; fuel-structured so the kernel can
evaluate it (any `fuel > 0` with `n < 10 ^ fuel` suffices). -/
def digitsRevAux : Nat → Nat → List Nat
  | 0, _ => []
  | fuel + 1, n => if n < 10 then [n] else n % 10 :: digitsRevAux fuel (n / 10)

/-- Little-endian decimal digits of `n`. -/
def digitsRev (n : Nat) : List Nat := digitsRevAux (n + 1) n

/-- Value of a little-endian digit list. -/
def valRev : List Nat → Nat
  | [] => 0
  | d :: ds => d + 10 * valRev ds

/-- Go `fmt.Sprintf("%d", n)` for a non-negative value. -/
def decimalRepr (n : Nat) : String := String.mk ((digitsRev n).reverse.map digitChar)

/-! ### Go `float64` model -/

/-- Model of a Go `float64`: an exact rational, NaN, or a signed infinity
(`inf true` is `+Inf`, `inf false` is `-Inf`). -/
inductive GoFloat where
  | fin : ℚ → GoFloat
  | nan : GoFloat
  | inf : Bool → GoFloat
deriving DecidableEq, Repr

/-- Go `math.IsNaN`. -/
def GoFloat.isNaN : GoFloat → Bool
  | .nan => true
  | _ => false

/-- Go `math.IsInf(f, 0)` (either infinity). -/
def GoFloat.isInf : GoFloat → Bool
  | .inf _ => true
  | _ => false

/-- IEEE addition on the model. -/
def GoFloat.add : GoFloat → GoFloat → GoFloat
  | .nan, _ => .nan
  | _, .nan => .nan
  | .inf s, .inf t => if s = t then .inf s else .nan
  | .inf s, .fin _ => .inf s
  | .fin _, .inf t => .inf t
  | .fin a, .fin b => .fin (a + b)

/-- IEEE negation on the model. -/
def GoFloat.neg : GoFloat → GoFloat
  | .nan => .nan
  | .inf s => .inf (!s)
  | .fin a => .fin (-a)

/-- IEEE subtraction on the model. -/
def GoFloat.sub (x y : GoFloat) : GoFloat := x.add y.neg

/-- IEEE multiplication on the model. -/
def GoFloat.mul : GoFloat → GoFloat → GoFloat
  | .nan, _ => .nan
  | _, .nan => .nan
  | .inf s, .inf t => .inf (s = t)
  | .inf s, .fin b => if b = 0 then .nan else .inf (s = decide (0 < b))
  | .fin a, .inf t => if a = 0 then .nan else .inf (t = decide (0 < a))
  | .fin a, .fin b => .fin (a * b)

/-- IEEE division on the model (signed zero is collapsed to `0`, whose
reciprocal is taken positive, as Go produces for a `float64(len)` denominator). -/
def GoFloat.div : GoFloat → GoFloat → GoFloat
  | .nan, _ => .nan
  | _, .nan => .nan
  | .inf _, .inf _ => .nan
  | .inf s, .fin b => .inf (s = decide (0 ≤ b))
  | .fin _, .inf _ => .fin 0
  | .fin a, .fin b =>
    if b = 0 then (if a = 0 then .nan else .inf (decide (0 < a))) else .fin (a / b)

/-- IEEE strict less-than: false whenever a NaN is involved. -/
def GoFloat.ltB : GoFloat → GoFloat → Bool
  | .nan, _ => false
  | _, .nan => false
  | .fin a, .fin b => decide (a < b)
  | .fin _, .inf t => t
  | .inf s, .fin _ => !s
  | .inf s, .inf t => !s && t

/-- IEEE less-or-equal: false whenever a NaN is involved. -/
def GoFloat.leB : GoFloat → GoFloat → Bool
  | .nan, _ => false
  | _, .nan => false
  | .fin a, .fin b => decide (a ≤ b)
  | .fin _, .inf t => t
  | .inf s, .fin _ => !s
  | .inf s, .inf t => !s || t

/-- IEEE equality: false whenever a NaN is involved. -/
def GoFloat.eqB : GoFloat → GoFloat → Bool
  | .nan, _ => false
  | _, .nan => false
  | .fin a, .fin b => decide (a = b)
  | .inf s, .inf t => s = t
  | _, _ => false

/-- Go `int(f)` truncation toward zero, as used by `floatElement.Int` after the
NaN and Inf guards (so only applied to finite values; the other cases are
unreachable defaults). -/
def GoFloat.trunc : GoFloat → Int
  | .fin q => if 0 ≤ q then ⌊q⌋ else ⌈q⌉
  | _ => 0

/-! ### `strconv` models -/

/-- Is this character an ASCII decimal digit? -/
def isDigitChar (c : Char) : Bool := '0' ≤ c && c ≤ '9'

/-- Digits of a character list, as a natural number; `none` if empty or a
non-digit occurs. -/
def digitsToNat : List Char → Option Nat
  | [] => none
  | cs =>
    if cs.all isDigitChar then
      some (cs.foldl (fun acc c => acc * 10 + digitVal c) 0)
    else none

/-- Go `strings.ToLower` on one character, for the ASCII range (all strings
compared case-insensitively by this code — `true/t/1/false/f/0`,
`inf/infinity/nan` — are ASCII). -/
def charToLower (c : Char) : Char :=
  match c with
  | 'A' => 'a' | 'B' => 'b' | 'C' => 'c' | 'D' => 'd' | 'E' => 'e' | 'F' => 'f'
  | 'G' => 'g' | 'H' => 'h' | 'I' => 'i' | 'J' => 'j' | 'K' => 'k' | 'L' => 'l'
  | 'M' => 'm' | 'N' => 'n' | 'O' => 'o' | 'P' => 'p' | 'Q' => 'q' | 'R' => 'r'
  | 'S' => 's' | 'T' => 't' | 'U' => 'u' | 'V' => 'v' | 'W' => 'w' | 'X' => 'x'
  | 'Y' => 'y' | 'Z' => 'z'
  | c => c

/-- Go `strings.ToLower` (ASCII). -/
def strToLower (s : String) : String := String.mk (s.data.map charToLower)

/-- Go `strconv.Atoi`: optional sign followed by one or more decimal digits
(64-bit range overflow is not modelled; no theorem below exercises it). -/
def goAtoi (s : String) : Option Int :=
  match s.data with
  | '+' :: rest => (digitsToNat rest).map Int.ofNat
  | '-' :: rest => (digitsToNat rest).map (fun n => -(Int.ofNat n))
  | cs => (digitsToNat cs).map Int.ofNat

/-- Split a character list at the first occurrence of `sep`. -/
def splitAtChar (sep : Char) : List Char → List Char × Option (List Char)
  | [] => ([], none)
  | c :: cs =>
    if c = sep then ([], some cs)
    else
      let (pre, post) := splitAtChar sep cs
      (c :: pre, post)

/-- Parse an unsigned decimal mantissa `digits[.digits]` as an exact rational;
at least one digit must be present overall. -/
def parseMantissa (cs : List Char) : Option ℚ :=
  let (intPart, fracPart) := splitAtChar '.' cs
  match fracPart with
  | none => (digitsToNat intPart).map (fun n => (n : ℚ))
  | some frac =>
    if intPart.isEmpty && frac.isEmpty then none
    else if (intPart ++ frac).all isDigitChar then
      some (((intPart ++ frac).foldl (fun acc c => acc * 10 + digitVal c) 0 : ℚ)
        / (10 : ℚ) ^ frac.length)
    else none

/-- Go `strconv.ParseFloat` for the decimal forms: optional sign, then either
`inf`/`infinity`/`nan` (case-insensitive) or a decimal mantissa with an
optional `e`/`E` exponent.  Hexadecimal floats, underscores and binary
rounding of the exact decimal value are not modelled (no theorem below
depends on them). -/
def goParseFloat (s : String) : Option GoFloat :=
  let core : List Char → Bool → Option GoFloat := fun cs negative =>
    let lower := strToLower (String.mk cs)
    if lower = "inf" || lower = "infinity" then some (.inf !negative)
    else if lower = "nan" then some .nan
    else
      let (mant, expPart) := splitAtChar 'e' cs
      let (mant, expPart) :=
        match expPart with
        | some _ => (mant, expPart)
        | none => splitAtChar 'E' cs
      match expPart with
      | none => (parseMantissa mant).map (fun q => .fin (if negative then -q else q))
      | some es =>
        let expVal : Option Int :=
          match es with
          | '+' :: rest => (digitsToNat rest).map Int.ofNat
          | '-' :: rest => (digitsToNat rest).map (fun n => -(Int.ofNat n))
          | rest => (digitsToNat rest).map Int.ofNat
        match parseMantissa mant, expVal with
        | some q, some e =>
          some (.fin ((if negative then -q else q) * (10 : ℚ) ^ e))
        | _, _ => none
  match s.data with
  | '+' :: rest => core rest false
  | '-' :: rest => core rest true
  | cs => core cs false

/-- Left-pad a digit string with zeros to width 6. -/
def padZeros6 (s : String) : String :=
  String.mk (List.replicate (6 - s.data.length) '0' ++ s.data)

/-- Decimal rendering of a non-negative rational scaled by `10 ^ 6`, rounded to
nearest with ties to even (the rounding `strconv` performs for `%f` with six
digits).  Helper for `formatFloat6`. -/
def roundedScaled6 (q : ℚ) : Nat :=
  let r := q * 1000000
  let fl := ⌊r⌋.toNat
  let rem := r - (fl : ℚ)
  if rem > 1 / 2 then fl + 1
  else if rem = 1 / 2 then (if fl % 2 = 0 then fl else fl + 1)
  else fl

/-- Go `fmt.Sprintf("%f", x)` = `strconv.FormatFloat(x, 'f', 6, 64)`: fixed
six digits after the decimal point. -/
def formatFloat6 : GoFloat → String
  | .nan => "NaN"
  | .inf true => "+Inf"
  | .inf false => "-Inf"
  | .fin q =>
    let sign := if q < 0 then "-" else ""
    let n := roundedScaled6 |q|
    sign ++ decimalRepr (n / 1000000) ++ "." ++ padZeros6 (decimalRepr (n % 1000000))

/-- Go `math.Sqrt` on the model.  The square root of a non-square positive
rational is irrational, hence has no exact rational model; that branch returns
NaN and is never evaluated by any theorem below (they only reach the NaN
input case). -/
def GoFloat.sqrt : GoFloat → GoFloat
  | .nan => .nan
  | .inf true => .inf true
  | .inf false => .nan
  | .fin q =>
    if q < 0 then .nan
    else
      let rn := Nat.sqrt q.num.toNat
      let rd := Nat.sqrt q.den
      if rn * rn = q.num.toNat ∧ rd * rd = q.den then .fin ((rn : ℚ) / (rd : ℚ))
      else .nan

/-! ### Elements (`type-string.go`, `type-int.go`, `type-float.go`, `type-bool.go`) -/

/-- The four Series types (`series.Type`). -/
inductive Kind where
  | string
  | int
  | float
  | bool
deriving DecidableEq, Repr

/-- One element of a Series: payload plus the explicit `nan` flag, per kind
(`stringElement`, `intElement`, `floatElement`, `boolElement`). -/
inductive GoElement where
  | str : String → Bool → GoElement
  | int : Int → Bool → GoElement
  | flt : GoFloat → Bool → GoElement
  | boo : Bool → Bool → GoElement
deriving DecidableEq, Repr

/-- The kind an element belongs to (`Element.Type`). -/
def elemKind : GoElement → Kind
  | .str _ _ => .string
  | .int _ _ => .int
  | .flt _ _ => .float
  | .boo _ _ => .bool

/-- The Go zero value of each element struct, as produced by `preAlloc`. -/
def zeroElem : Kind → GoElement
  | .string => .str "" false
  | .int => .int 0 false
  | .float => .flt (.fin 0) false
  | .bool => .boo false false

/-- `Element.IsNA`: the explicit flag for string/int/bool; `floatElement.IsNA`
additionally reports a NaN payload as missing (`e.nan || math.IsNaN(e.e)`). -/
def elemIsNA : GoElement → Bool
  | .str _ n => n
  | .int _ n => n
  | .flt p n => n || p.isNaN
  | .boo _ n => n

/-- Go `fmt.Sprint` of an `int` value. -/
def intRepr (i : Int) : String :=
  if i < 0 then "-" ++ decimalRepr i.natAbs else decimalRepr i.toNat

/-- `Element.String`. -/
def elemString : GoElement → String
  | .str p n => if n then "NaN" else p
  | .int p n => if n then "NaN" else intRepr p
  | .flt p n => if n || p.isNaN then "NaN" else formatFloat6 p
  | .boo p n => if n then "NaN" else if p then "true" else "false"

/-- `Element.Int` (`none` is the Go error return). -/
def elemInt : GoElement → Option Int
  | .str p n => if n then none else goAtoi p
  | .int p n => if n then none else some p
  | .flt p n =>
    if n || p.isNaN then none
    else if p.isInf then none
    else some p.trunc
  | .boo p n => if n then none else some (if p then 1 else 0)

/-- `Element.Float`. -/
def elemFloat : GoElement → GoFloat
  | .str p n =>
    if n then .nan
    else match goParseFloat p with
      | none => .nan
      | some f => f
  | .int p n => if n then .nan else .fin (p : ℚ)
  | .flt p n => if n || p.isNaN then .nan else p
  | .boo p n => if n then .nan else .fin (if p then 1 else 0)

/-- `Element.Bool` (`none` is the Go error return). -/
def elemBool : GoElement → Option Bool
  | .str p n =>
    if n then none
    else match strToLower p with
      | "true" | "t" | "1" => some true
      | "false" | "f" | "0" => some false
      | _ => none
  | .int p n =>
    if n then none
    else if p = 1 then some true else if p = 0 then some false else none
  | .flt p n =>
    if n || p.isNaN then none
    else if p = .fin 1 then some true else if p = .fin 0 then some false else none
  | .boo p n => if n then none else some p

/-- `Element.Eq`: dispatch on the receiver's kind, as in the four `type-*.go`
files (string compares against `elem.String()`, int against `elem.Int()`,
float against `elem.Float()`, bool against `elem.Bool()`). -/
def elemEq : GoElement → GoElement → Bool
  | .str p n, b => if n || elemIsNA b then false else p = elemString b
  | .int p n, b =>
    match elemInt b with
    | none => false
    | some i => if n then false else p = i
  | .flt p n, b =>
    let f := elemFloat b
    if (n || p.isNaN) || f.isNaN then false else p.eqB f
  | .boo p n, b =>
    match elemBool b with
    | none => false
    | some v => if n then false else p = v

/-- `Element.Neq`. -/
def elemNeq : GoElement → GoElement → Bool
  | .str p n, b => if n || elemIsNA b then false else p ≠ elemString b
  | .int p n, b =>
    match elemInt b with
    | none => false
    | some i => if n then false else p ≠ i
  | .flt p n, b =>
    let f := elemFloat b
    if (n || p.isNaN) || f.isNaN then false else !p.eqB f
  | .boo p n, b =>
    match elemBool b with
    | none => false
    | some v => if n then false else p ≠ v

/-- `Element.Less`. -/
def elemLess : GoElement → GoElement → Bool
  | .str p n, b => if n || elemIsNA b then false else decide (p < elemString b)
  | .int p n, b =>
    match elemInt b with
    | none => false
    | some i => if n then false else decide (p < i)
  | .flt p n, b =>
    let f := elemFloat b
    if (n || p.isNaN) || f.isNaN then false else p.ltB f
  | .boo p n, b =>
    match elemBool b with
    | none => false
    | some v => if n then false else !p && v

/-- `Element.LessEq`. -/
def elemLessEq : GoElement → GoElement → Bool
  | .str p n, b => if n || elemIsNA b then false else decide (p ≤ elemString b)
  | .int p n, b =>
    match elemInt b with
    | none => false
    | some i => if n then false else decide (p ≤ i)
  | .flt p n, b =>
    let f := elemFloat b
    if (n || p.isNaN) || f.isNaN then false else p.leB f
  | .boo p n, b =>
    match elemBool b with
    | none => false
    | some v => if n then false else !p || v

/-- `Element.Greater`. -/
def elemGreater : GoElement → GoElement → Bool
  | .str p n, b => if n || elemIsNA b then false else decide (elemString b < p)
  | .int p n, b =>
    match elemInt b with
    | none => false
    | some i => if n then false else decide (i < p)
  | .flt p n, b =>
    let f := elemFloat b
    if (n || p.isNaN) || f.isNaN then false else f.ltB p
  | .boo p n, b =>
    match elemBool b with
    | none => false
    | some v => if n then false else p && !v

/-- `Element.GreaterEq`. -/
def elemGreaterEq : GoElement → GoElement → Bool
  | .str p n, b => if n || elemIsNA b then false else decide (elemString b ≤ p)
  | .int p n, b =>
    match elemInt b with
    | none => false
    | some i => if n then false else decide (i ≤ p)
  | .flt p n, b =>
    let f := elemFloat b
    if (n || p.isNaN) || f.isNaN then false else f.leB p
  | .boo p n, b =>
    match elemBool b with
    | none => false
    | some v => if n then false else p || !v

/-- A value handed to `Element.Set` (Go `interface{}`): one of the four native
kinds, another element, or anything else (`nil`, `struct{}`, …) which every
`Set` treats through its `default` branch. -/
inductive GoValue where
  | vstr : String → GoValue
  | vint : Int → GoValue
  | vflt : GoFloat → GoValue
  | vbool : Bool → GoValue
  | velem : GoElement → GoValue
  | vnil : GoValue
deriving Repr

/-- `Element.Set`: re-derives payload and `nan` flag from `v`, dispatching on
the receiver's kind.  Branches that only set `e.nan = true` keep the old
payload, exactly as the Go methods do. -/
def elemSet : GoElement → GoValue → GoElement
  | .str old _, v =>
    match v with
    | .vstr s => .str s (s = "NaN")
    | .vint i => .str (intRepr i) false
    | .vflt f => .str (formatFloat6 f) false
    | .vbool b => .str (if b then "true" else "false") false
    | .velem el => .str (elemString el) false
    | .vnil => .str old true
  | .int old _, v =>
    match v with
    | .vstr s =>
      if s = "NaN" then .int old true
      else match goAtoi s with
        | none => .int old true
        | some i => .int i false
    | .vint i => .int i false
    | .vflt f => if f.isNaN || f.isInf then .int old true else .int f.trunc false
    | .vbool b => .int (if b then 1 else 0) false
    | .velem el =>
      match elemInt el with
      | none => .int old true
      | some i => .int i false
    | .vnil => .int old true
  | .flt old _, v =>
    match v with
    | .vstr s =>
      if s = "NaN" then .flt old true
      else match goParseFloat s with
        | none => .flt old true
        | some f => .flt f false
    | .vint i => .flt (.fin (i : ℚ)) false
    | .vflt f => .flt f false
    | .vbool b => .flt (.fin (if b then 1 else 0)) false
    | .velem el => .flt (elemFloat el) false
    | .vnil => .flt old true
  | .boo old _, v =>
    match v with
    | .vstr s =>
      if s = "NaN" then .boo old true
      else match strToLower s with
        | "true" | "t" | "1" => .boo true false
        | "false" | "f" | "0" => .boo false false
        | _ => .boo old true
    | .vint i => if i = 1 then .boo true false else if i = 0 then .boo false false else .boo old true
    | .vflt f =>
      if f = .fin 1 then .boo true false
      else if f = .fin 0 then .boo false false
      else .boo old true
    | .vbool b => .boo b false
    | .velem el =>
      match elemBool el with
      | none => .boo old true
      | some b => .boo b false
    | .vnil => .boo old true

/-! ### Series (`series.go`) -/

/-- A Series: name, element array and type, plus the recoverable error slot. -/
structure GoSeries where
  name : String
  t : Kind
  elements : List GoElement
  err : Option String
deriving DecidableEq, Repr

/-- The `values interface{}` argument of the `New` constructor: one of the
typed slice cases of its switch, another Series, a slice reached through the
generic `reflect.Slice` path, a slice of unsupported values (each set through
the `default` branch of `Set`, e.g. `[]struct{}{}`), a single non-slice value,
or `nil`. -/
inductive NewInput where
  | vnil : NewInput
  | strs : List String → NewInput
  | floats : List GoFloat → NewInput
  | ints : List Int → NewInput
  | bools : List Bool → NewInput
  | series : GoSeries → NewInput
  | elems : List GoElement → NewInput
  | unsupportedSlice : Nat → NewInput
  | single : GoValue → NewInput
deriving Repr

/-- `series.New`: pre-allocates zero elements of kind `t` and `Set`s each from
the input.  `New` never sets `Err`. -/
def seriesNew (values : NewInput) (t : Kind) (name : String) : GoSeries :=
  let z := zeroElem t
  let elements : List GoElement :=
    match values with
    | .vnil => [elemSet z .vnil]
    | .strs l => l.map (fun v => elemSet z (.vstr v))
    | .floats l => l.map (fun v => elemSet z (.vflt v))
    | .ints l => l.map (fun v => elemSet z (.vint v))
    | .bools l => l.map (fun v => elemSet z (.vbool v))
    | .series v => v.elements.map (fun e => elemSet z (.velem e))
    | .elems l => l.map (fun e => elemSet z (.velem e))
    | .unsupportedSlice n => List.replicate n (elemSet z .vnil)
    | .single v => [elemSet z v]
  { name := name, t := t, elements := elements, err := none }

/-- `Series.Empty`. -/
def seriesEmpty (s : GoSeries) : GoSeries := seriesNew (.ints []) s.t s.name

/-- `Series.Copy` (the error slot is copied along). -/
def seriesCopy (s : GoSeries) : GoSeries :=
  { name := s.name, t := s.t, elements := s.elements, err := s.err }

/-- `Series.Append`: a no-op on a Series already carrying an error, otherwise
extends the element array with the coerced values. -/
def seriesAppend (s : GoSeries) (values : NewInput) : GoSeries :=
  if s.err.isSome then s
  else { s with elements := s.elements ++ (seriesNew values s.t s.name).elements }

/-- `Series.Concat`. -/
def seriesConcat (s x : GoSeries) : GoSeries :=
  if s.err.isSome then s
  else
    match x.err with
    | some e => { s with err := some ("concat error: argument has errors: " ++ e) }
    | none => seriesAppend (seriesCopy s) (.series x)

/-- `Series.HasNaN`. -/
def seriesHasNaN (s : GoSeries) : Bool := s.elements.any elemIsNA

/-- `Series.Int`: all elements as ints, or the first conversion error.  The Go
error text depends on the failing element; a fixed representative message is
used here (no theorem below observes it). -/
def seriesIntValues (s : GoSeries) : Except String (List Int) :=
  match s.elements.mapM elemInt with
  | some l => .ok l
  | none => .error "can't convert NaN to int"

/-- `Series.Bool`, with the same convention for the error text. -/
def seriesBoolValues (s : GoSeries) : Except String (List Bool) :=
  match s.elements.mapM elemBool with
  | some l => .ok l
  | none => .error "can't convert NaN to bool"

/-- The `Indexes` specifier accepted by `Subset`/`Set`: an int, an int slice,
a bool mask, or a Series of ints or bools. -/
inductive GoIndexes where
  | int : Int → GoIndexes
  | ints : List Int → GoIndexes
  | bools : List Bool → GoIndexes
  | series : GoSeries → GoIndexes
deriving Repr

/-- `parseIndexes`: resolves a specifier to concrete positions.  As in Go, the
int cases perform no bounds check. -/
def parseIndexes (l : Nat) : GoIndexes → Except String (List Int)
  | .ints idx => .ok idx
  | .int i => .ok [i]
  | .bools bs =>
    if bs.length ≠ l then .error "索引错误: 索引维度不匹配"
    else .ok (bs.enum.filterMap (fun p => if p.2 then some (Int.ofNat p.1) else none))
  | .series s =>
    match s.err with
    | some e => .error ("索引错误: 新值存在错误: " ++ e)
    | none =>
      if seriesHasNaN s then .error "索引错误: 索引包含 NaN"
      else
        match s.t with
        | .int => seriesIntValues s
        | .bool =>
          match seriesBoolValues s with
          | .error e => .error ("索引错误: " ++ e)
          | .ok bs =>
            -- Go recurses through the []bool case; its length test is
            -- inlined here.
            if bs.length ≠ l then .error "索引错误: 索引维度不匹配"
            else .ok (bs.enum.filterMap (fun p => if p.2 then some (Int.ofNat p.1) else none))
        | _ => .error "索引错误: 未知索引模式"

/-- `Series.Subset`.  A position outside `[0, len)` would make the Go slice
indexing panic; the model reads the zero element there (all callers below
stay in range). -/
def seriesSubset (s : GoSeries) (indexes : GoIndexes) : GoSeries :=
  if s.err.isSome then s
  else
    match parseIndexes s.elements.length indexes with
    | .error e => { s with err := some e }
    | .ok idx =>
      { name := s.name, t := s.t,
        elements := idx.map (fun i => s.elements.getD i.toNat (zeroElem s.t)),
        err := none }

/-- The positional overwrite loop of `Series.Set`: writes element `k` of the
new values at position `idx k` until done or an index is out of range, in
which case it stops, leaving earlier writes in place. -/
def setLoop (t : Kind) (len : Nat) (newElems : List GoElement) :
    List GoElement → List (Nat × Int) → List GoElement × Option String
  | elems, [] => (elems, none)
  | elems, (k, i) :: rest =>
    if i < 0 ∨ (len : Int) ≤ i then (elems, some "set error: 索引超出范围")
    else
      setLoop t len newElems
        (elems.set i.toNat
          (elemSet (elems.getD i.toNat (zeroElem t)) (.velem (newElems.getD k (zeroElem t)))))
        rest

/-- `Series.Set`: parses the indexes, requires as many indexes as new values,
then overwrites positionally — mutating the backing array even when a later
index turns out to be out of range. -/
def seriesSet (s : GoSeries) (indexes : GoIndexes) (newValue : GoSeries) : GoSeries :=
  if s.err.isSome then s
  else
    match newValue.err with
    | some e => { s with err := some ("set error: 参数存在错误: " ++ e) }
    | none =>
      match parseIndexes s.elements.length indexes with
      | .error e => { s with err := some e }
      | .ok idx =>
        if idx.length ≠ newValue.elements.length then
          { s with err := some "set error: 维度不匹配" }
        else
          let (elems, errOut) := setLoop s.t s.elements.length newValue.elements
            s.elements idx.enum
          { s with elements := elems, err := errOut }

/-- The supported comparators (`series.Comparator`).  Arbitrary other strings
of the Go string-typed alias are not modelled (they only reach the
`未知比较器` error branch). -/
inductive Comparator where
  | eq | neq | greater | greaterEq | less | lessEq | isIn | compFunc
deriving DecidableEq, Repr

/-- The `comparando interface{}` of `Compare`: either an ordinary value (fed
to `New`) or a caller-supplied predicate for `CompFunc`. -/
inductive Comparando where
  | input : NewInput → Comparando
  | func : (GoElement → Bool) → Comparando

/-- The inner `compareElements` helper of `Series.Compare`. -/
def compareElements (a b : GoElement) : Comparator → Except String Bool
  | .eq => .ok (elemEq a b)
  | .neq => .ok (elemNeq a b)
  | .greater => .ok (elemGreater a b)
  | .greaterEq => .ok (elemGreaterEq a b)
  | .less => .ok (elemLess a b)
  | .lessEq => .ok (elemLessEq a b)
  | .isIn => .error "未知比较器: in"
  | .compFunc => .error "未知比较器: func"

/-- `series.Bools` (the constructor used for comparison results). -/
def boolsSeries (l : List Bool) : GoSeries := seriesNew (.bools l) .bool ""

/-- `Series.Compare`.  `none` models the Go panic on a `CompFunc` comparator
with a non-function comparando; every other path returns a Series. -/
def seriesCompare (s : GoSeries) (comparator : Comparator) (comparando : Comparando) :
    Option GoSeries :=
  if s.err.isSome then some s
  else if comparator = .compFunc then
    match comparando with
    | .func f => some (boolsSeries (s.elements.map f))
    | .input _ => none
  else
    let compInput : NewInput :=
      match comparando with
      | .input v => v
      | .func _ => .single .vnil  -- a func value reaches the non-slice default branch of New
    let comp := seriesNew compInput s.t ""
    if comparator = .isIn then
      some (boolsSeries (s.elements.map (fun e => comp.elements.any (fun m => elemEq e m))))
    else if comp.elements.length = 1 then
      match s.elements.mapM
          (fun e => (compareElements e (comp.elements.getD 0 (zeroElem s.t)) comparator).toOption) with
      | some bl => some (boolsSeries bl)
      | none => some { seriesEmpty s with err := some "未知比较器" }
    else if s.elements.length ≠ comp.elements.length then
      some { seriesEmpty s with err := some "无法比较: 长度不匹配" }
    else
      match (s.elements.zip comp.elements).mapM
          (fun p => (compareElements p.1 p.2 comparator).toOption) with
      | some bl => some (boolsSeries bl)
      | none => some { seriesEmpty s with err := some "未知比较器" }

/-! ### Ordering (`Series.Order`) -/

/-- Insert `x` into the already-sorted `acc`, before the first strictly
greater element — the insertion step of a stable sort. -/
def insertOrd (lt : α → α → Bool) : List α → α → List α
  | [], x => [x]
  | y :: ys, x => if lt x y then x :: y :: ys else y :: insertOrd lt ys x

/-- Stable sort by the strict comparison `lt` (left-to-right insertion sort).
Go's `sort.Stable` is specified as exactly the stable sort of its input, so
any stable sorting algorithm is a faithful model whenever `Less` is a strict
weak order — which it is for the homogeneous, non-missing elements `Order`
feeds to it. -/
def stableSort (lt : α → α → Bool) (l : List α) : List α := l.foldl (insertOrd lt) []

/-- The comparison `Order` sorts by: `Less` on the carried elements, flipped
when `reverse` is set (`sort.Reverse`). -/
def orderLt (reverse : Bool) (a b : Nat × GoElement) : Bool :=
  if reverse then elemLess b.2 a.2 else elemLess a.2 b.2

/-- `Series.Order` on natural-number positions: stable-sorts the non-missing
elements by `Less` (or its reverse), then appends the positions of missing
elements in order of appearance. -/
def seriesOrderNat (s : GoSeries) (reverse : Bool) : List Nat :=
  let idxed := s.elements.enum
  let nonNA := idxed.filter (fun p => !elemIsNA p.2)
  let nas := (idxed.filter (fun p => elemIsNA p.2)).map (·.1)
  (stableSort (orderLt reverse) nonNA).map (·.1) ++ nas

/-- `Series.Order` (returning Go ints). -/
def seriesOrder (s : GoSeries) (reverse : Bool) : List Int :=
  (seriesOrderNat s reverse).map Int.ofNat

/-! ### Reductions (`Sum`, `Mean`, `Median`, `StdDev`, `Quantile`) -/

/-- `Series.Float`. -/
def seriesFloat (s : GoSeries) : List GoFloat := s.elements.map elemFloat

/-- gonum `floats.Sum`: plain sequential summation. -/
def statSum (xs : List GoFloat) : GoFloat := xs.foldl GoFloat.add (.fin 0)

/-- gonum `stat.Mean` with nil weights: `floats.Sum(x) / float64(len(x))`
(NaN on an empty slice, via 0/0). -/
def statMean (xs : List GoFloat) : GoFloat := (statSum xs).div (.fin (xs.length : ℚ))

/-- gonum `stat.Variance` with nil weights: the corrected two-pass algorithm
`(Σ(v-mean)² - (Σ(v-mean))²/n) / (n-1)` (NaN on an empty slice, via the
`/n` term). -/
def statVariance (xs : List GoFloat) : GoFloat :=
  let mean := statMean xs
  let ss := xs.foldl (fun (acc : GoFloat) v => acc.add ((v.sub mean).mul (v.sub mean)))
    (GoFloat.fin 0)
  let compensation := xs.foldl (fun (acc : GoFloat) v => acc.add (v.sub mean)) (GoFloat.fin 0)
  (ss.sub ((compensation.mul compensation).div (.fin (xs.length : ℚ)))).div
    (.fin ((xs.length : ℚ) - 1))

/-- gonum `stat.StdDev`: square root of the sample variance. -/
def statStdDev (xs : List GoFloat) : GoFloat := (statVariance xs).sqrt

/-- `Series.Sum`: NaN for empty, string or bool Series, else the float sum
starting from the first value. -/
def seriesSum (s : GoSeries) : GoFloat :=
  if s.elements.length = 0 ∨ s.t = .string ∨ s.t = .bool then .nan
  else
    match seriesFloat s with
    | [] => .nan
    | x :: rest => rest.foldl GoFloat.add x

/-- `Series.Mean`: `stat.Mean` over the float coercion, with no guard. -/
def seriesMean (s : GoSeries) : GoFloat := statMean (seriesFloat s)

/-- `Series.StdDev`: `stat.StdDev` over the float coercion, with no guard. -/
def seriesStdDev (s : GoSeries) : GoFloat := statStdDev (seriesFloat s)

/-- `Series.Median`: NaN for empty, string or bool Series; otherwise indexes
through the `Order(false)` permutation and takes the middle element (or the
average of the two middle elements). -/
def seriesMedian (s : GoSeries) : GoFloat :=
  if s.elements.length = 0 ∨ s.t = .string ∨ s.t = .bool then .nan
  else
    let ix := seriesOrderNat s false
    let newElem := ix.map (fun i => s.elements.getD i (zeroElem s.t))
    if newElem.length % 2 ≠ 0 then
      elemFloat (newElem.getD (newElem.length / 2) (zeroElem s.t))
    else
      ((elemFloat (newElem.getD (newElem.length / 2 - 1) (zeroElem s.t))).add
        (elemFloat (newElem.getD (newElem.length / 2) (zeroElem s.t)))).mul (.fin (1 / 2))

/-- gonum `stat.Quantile` with the `Empirical` cumulant and nil weights: walk
the cumulative count and return the first sorted value whose cumulative
weight reaches `p * n` (the last value if none does).  Only the NaN guard of
`Series.Quantile` is exercised by the theorems below. -/
def statQuantileEmpirical (p : GoFloat) (xs : List GoFloat) : GoFloat :=
  let fidx := p.mul (.fin (xs.length : ℚ))
  let rec walk : List GoFloat → ℚ → Option GoFloat
    | [], _ => none
    | x :: rest, cum => if fidx.leB (.fin (cum + 1)) then some x else walk rest (cum + 1)
  match walk xs 0 with
  | some x => x
  | none => xs.getD (xs.length - 1) .nan

/-- `Series.Quantile`: NaN for a string or empty Series, else the empirical
quantile of the sorted float values. -/
def seriesQuantile (s : GoSeries) (p : GoFloat) : GoFloat :=
  if s.t = .string ∨ s.elements.length = 0 then .nan
  else
    statQuantileEmpirical p
      (seriesFloat (seriesSubset s (.ints (seriesOrder s false))))

/-! ### Rolling window (`RollingWindow`) -/

/-- `RollingWindow`: window size bound to a source Series. -/
structure RollingWindow where
  window : Int
  series : GoSeries
deriving Repr

/-- `Series.Rolling`. -/
def seriesRolling (s : GoSeries) (window : Int) : RollingWindow :=
  { window := window, series := s }

/-- `RollingWindow.getBlocks`: for positions `1..len`, an empty Series while
fewer than `window` elements precede, else the subset of the `window`
positions ending at the current one. -/
def rollingGetBlocks (r : RollingWindow) : List GoSeries :=
  (List.range r.series.elements.length).map (fun i0 =>
    let i : Int := (i0 : Int) + 1
    if i < r.window then seriesEmpty r.series
    else
      seriesSubset r.series
        (.ints ((List.range r.window.toNat).map (fun k => i - r.window + (k : Int)))))

/-- `RollingWindow.Mean`: reduce each block with `Mean` and append the scalar
to a float Series named `"Mean"`. -/
def rollingMean (r : RollingWindow) : GoSeries :=
  (rollingGetBlocks r).foldl
    (fun s block => seriesAppend s (.single (.vflt (seriesMean block))))
    (seriesNew (.floats []) .float "Mean")

/-- `RollingWindow.StdDev`: reduce each block with `StdDev` and append the
scalar to a float Series named `"StdDev"`. -/
def rollingStdDev (r : RollingWindow) : GoSeries :=
  (rollingGetBlocks r).foldl
    (fun s block => seriesAppend s (.single (.vflt (seriesStdDev block))))
    (seriesNew (.floats []) .float "StdDev")

/-! ### DataFrame (`dataframe.go`) -/

/-- A DataFrame: columns, cached dimensions, recoverable error slot. -/
structure GoDataFrame where
  columns : List GoSeries
  ncols : Nat
  nrows : Nat
  err : Option String
deriving DecidableEq, Repr

/-- The names synthesized for empty column names: `X0, X1, …`. -/
def mkXName (k : Nat) : String := "X" ++ decimalRepr k

/-- The names synthesized for duplicated column names: `<name>_0, <name>_1, …`. -/
def mkDupName (name : String) (k : Nat) : String := name ++ "_" ++ decimalRepr k

/-- The collision loop of `fixColnames`: bump `counter` until
`mk counter` does not occur in the current name list.  Go uses an unbounded
`for` loop; giving `fuel = length + 1` is enough to always find a fresh
name (proved below), so the fueled version agrees with it. -/
def proposeLoop (cur : List String) (mk : Nat → String) : Nat → Nat → Nat
  | counter, 0 => counter
  | counter, fuel + 1 =>
    if mk counter ∈ cur then proposeLoop cur mk (counter + 1) fuel else counter

/-- One assignment step of `fixColnames`: find a fresh name for position `i`
and write it, returning the updated list and the bumped counter. -/
def assignFresh (cur : List String) (mk : Nat → String) (counter : Nat) (i : Nat) :
    List String × Nat :=
  let c := proposeLoop cur mk counter (cur.length + 1)
  (cur.set i (mk c), c + 1)

/-- The missing-name loop of `fixColnames`: one shared counter across all
empty positions. -/
def assignMissing (mk : Nat → String) : List String → Nat → List Nat → List String
  | cur, _, [] => cur
  | cur, counter, i :: rest =>
    let (cur2, c2) := assignFresh cur mk counter i
    assignMissing mk cur2 c2 rest

/-- The positions (in order) whose entry equals `v`. -/
def positionsOf (colnames : List String) (v : String) : List Nat :=
  (colnames.enum.filter (fun p => p.2 = v)).map (·.1)

/-- `fixColnames`: synthesize `X<k>` names for empty entries (one shared
counter), then, for each duplicated name in sorted order, rename all its
positions to `<name>_<k>` (counter restarting per name); every proposed name
is bumped past collisions with the current list. -/
def fixColnames (colnames : List String) : List String :=
  let missingnames := positionsOf colnames ""
  let dupKeys := stableSort (fun a b => decide (a < b))
    (colnames.dedup.filter (fun n => n ≠ "" ∧ colnames.count n ≥ 2))
  let step1 := assignMissing mkXName colnames 0 missingnames
  dupKeys.foldl
    (fun cur name =>
      let name2 := if name = "" then "X" else name
      assignMissing (mkDupName name2) cur 0 (positionsOf colnames name))
    step1

/-- The loop of `checkColumnsDimensions`: `nrows` is `none` until the first
column fixes it. -/
def checkDimsLoop : Option Nat → Nat → List GoSeries → Except String Nat
  | nrows, _, [] => .ok (nrows.getD 0)
  | nrows, i, s :: rest =>
    match s.err with
    | some e => .error ("error on series " ++ decimalRepr i ++ ": " ++ e)
    | none =>
      match nrows with
      | none => checkDimsLoop (some s.elements.length) (i + 1) rest
      | some r =>
        if r ≠ s.elements.length then .error "arguments have different dimensions"
        else checkDimsLoop (some r) (i + 1) rest

/-- `checkColumnsDimensions`: fails on an empty list, a column carrying an
error, or unequal lengths; returns `(nrows, ncols)`. -/
def checkColumnsDimensions (se : List GoSeries) : Except String (Nat × Nat) :=
  if se.isEmpty then .error "no Series given"
  else (checkDimsLoop none 0 se).map (fun r => (r, se.length))

/-- `dataframe.New`: copy the columns, validate dimensions, then run the
name-fixup pass. -/
def dfNew (se : List GoSeries) : GoDataFrame :=
  if se.isEmpty then { columns := [], ncols := 0, nrows := 0, err := some "empty DataFrame" }
  else
    let columns := se.map seriesCopy
    match checkColumnsDimensions columns with
    | .error e => { columns := [], ncols := 0, nrows := 0, err := some e }
    | .ok (nrows, ncols) =>
      let fixed := fixColnames (columns.map (·.name))
      { columns := List.zipWith (fun s n => { s with name := n }) columns fixed,
        ncols := ncols, nrows := nrows, err := none }

/-- `DataFrame.Names`. -/
def dfNames (df : GoDataFrame) : List String := df.columns.map (·.name)

/-- `DataFrame.Subset`: sticky on an error, else subsets every column and
re-validates dimensions (no name fixup). -/
def dfSubset (df : GoDataFrame) (indexes : GoIndexes) : GoDataFrame :=
  if df.err.isSome then df
  else
    let columns := df.columns.map (fun c => seriesSubset c indexes)
    match checkColumnsDimensions columns with
    | .error e => { columns := [], ncols := 0, nrows := 0, err := some e }
    | .ok (nrows, ncols) =>
      { columns := columns, ncols := ncols, nrows := nrows, err := none }

/-- `DataFrame.SetNames`: assigns the supplied names verbatim (no fixup pass);
the first component is the returned error, the second the DataFrame as left
by the call (Go mutates the shared column slice in place). -/
def dfSetNames (df : GoDataFrame) (colnames : List String) : Option String × GoDataFrame :=
  match df.err with
  | some e => (some e, df)
  | none =>
    if colnames.length ≠ df.ncols then (some "设置列名: 维度不匹配", df)
    else (none, { df with columns := List.zipWith (fun s n => { s with name := n }) df.columns colnames })

/-- `DataFrame.colIndex` (`none` for the Go `-1`). -/
def dfColIndex (df : GoDataFrame) (s : String) : Option Nat :=
  (dfNames df).findIdx? (· = s)

/-- Go `%q` for the plain column names appearing here. -/
def goQuote (s : String) : String := "\"" ++ s ++ "\""

/-- A default Series for out-of-range column access (never reached by the
evaluations below). -/
def dummySeries : GoSeries := { name := "", t := .string, elements := [], err := none }

/-- Element of column `col`, row `row`. -/
def elemAt (df : GoDataFrame) (col row : Nat) : GoElement :=
  (df.columns.getD col dummySeries).elements.getD row (zeroElem .string)

/-- The key-resolution block shared verbatim by the four keyed joins:
resolve every key on both sides, collecting the error messages of missing
keys. -/
def joinKeyIdx (df b : GoDataFrame) (keys : List String) :
    Except String (List Nat × List Nat) :=
  let errorArr := (keys.map (fun key =>
    (if (dfColIndex df key).isNone then ["在左侧 DataFrame 中找不到键 " ++ goQuote key] else []) ++
    (if (dfColIndex b key).isNone then ["在右侧 DataFrame 中找不到键 " ++ goQuote key] else []))).flatten
  if errorArr.isEmpty then
    .ok (keys.map (fun k => (dfColIndex df k).getD 0), keys.map (fun k => (dfColIndex b k).getD 0))
  else .error (String.intercalate "\n" errorArr)

/-- The column indexes not listed in `iKeys` (Go `inIntSlice` filter). -/
def notKeyIdx (ncols : Nat) (iKeys : List Nat) : List Nat :=
  (List.range ncols).filter (fun i => decide (i ∉ iKeys))

/-- Append one output row: each column appends its element, `none` appending
`nil` (which `Set` turns into a missing element). -/
def appendOptRow (cols : List GoSeries) (row : List (Option GoElement)) : List GoSeries :=
  List.zipWith
    (fun s oe =>
      match oe with
      | some e => seriesAppend s (.single (.velem e))
      | none => seriesAppend s .vnil)
    cols row

/-- Do rows `i` (left) and `j` (right) agree on every key pair under `Eq`? -/
def matchKeys (df b : GoDataFrame) (iKeysA iKeysB : List Nat) (i j : Nat) : Bool :=
  (iKeysA.zip iKeysB).all (fun p => elemEq (elemAt df p.1 i) (elemAt b p.2 j))

/-- The fresh empty output columns all keyed joins start from: left keys,
then left non-keys, then right non-keys. -/
def joinInitCols (df b : GoDataFrame) (iKeysA iNotKeysA iNotKeysB : List Nat) :
    List GoSeries :=
  iKeysA.map (fun k => seriesEmpty (df.columns.getD k dummySeries)) ++
  iNotKeysA.map (fun k => seriesEmpty (df.columns.getD k dummySeries)) ++
  iNotKeysB.map (fun k => seriesEmpty (b.columns.getD k dummySeries))

/-- One matched output row. -/
def joinMatchRow (df b : GoDataFrame) (iKeysA iNotKeysA iNotKeysB : List Nat) (i j : Nat) :
    List (Option GoElement) :=
  iKeysA.map (fun k => some (elemAt df k i)) ++
  iNotKeysA.map (fun k => some (elemAt df k i)) ++
  iNotKeysB.map (fun k => some (elemAt b k j))

/-- The padded row an unmatched left row emits. -/
def joinLeftPadRow (df : GoDataFrame) (iKeysA iNotKeysA iNotKeysB : List Nat) (i : Nat) :
    List (Option GoElement) :=
  iKeysA.map (fun k => some (elemAt df k i)) ++
  iNotKeysA.map (fun k => some (elemAt df k i)) ++
  iNotKeysB.map (fun _ => none)

/-- The padded row an unmatched right row emits in `OuterJoin`. -/
def joinRightPadRow (b : GoDataFrame) (iKeysB iNotKeysA iNotKeysB : List Nat) (j : Nat) :
    List (Option GoElement) :=
  iKeysB.map (fun k => some (elemAt b k j)) ++
  iNotKeysA.map (fun _ => none) ++
  iNotKeysB.map (fun k => some (elemAt b k j))

/-- `DataFrame.InnerJoin`. -/
def dfInnerJoin (df b : GoDataFrame) (keys : List String) : GoDataFrame :=
  if keys.isEmpty then { columns := [], ncols := 0, nrows := 0, err := some "未指定连接键" }
  else
    match joinKeyIdx df b keys with
    | .error e => { columns := [], ncols := 0, nrows := 0, err := some e }
    | .ok (iKeysA, iKeysB) =>
      let iNotKeysA := notKeyIdx df.ncols iKeysA
      let iNotKeysB := notKeyIdx b.ncols iKeysB
      let final := (List.range df.nrows).foldl
        (fun cols i =>
          (List.range b.nrows).foldl
            (fun cols j =>
              if matchKeys df b iKeysA iKeysB i j then
                appendOptRow cols (joinMatchRow df b iKeysA iNotKeysA iNotKeysB i j)
              else cols)
            cols)
        (joinInitCols df b iKeysA iNotKeysA iNotKeysB)
      dfNew final

/-- `DataFrame.LeftJoin`. -/
def dfLeftJoin (df b : GoDataFrame) (keys : List String) : GoDataFrame :=
  if keys.isEmpty then { columns := [], ncols := 0, nrows := 0, err := some "未指定连接键" }
  else
    match joinKeyIdx df b keys with
    | .error e => { columns := [], ncols := 0, nrows := 0, err := some e }
    | .ok (iKeysA, iKeysB) =>
      let iNotKeysA := notKeyIdx df.ncols iKeysA
      let iNotKeysB := notKeyIdx b.ncols iKeysB
      let final := (List.range df.nrows).foldl
        (fun cols i =>
          let st := (List.range b.nrows).foldl
            (fun (st : List GoSeries × Bool) j =>
              if matchKeys df b iKeysA iKeysB i j then
                (appendOptRow st.1 (joinMatchRow df b iKeysA iNotKeysA iNotKeysB i j), true)
              else st)
            (cols, false)
          if st.2 then st.1
          else appendOptRow st.1 (joinLeftPadRow df iKeysA iNotKeysA iNotKeysB i))
        (joinInitCols df b iKeysA iNotKeysA iNotKeysB)
      dfNew final

/-- `DataFrame.OuterJoin`: the left-join pass over left rows, then a pass
appending a padded row for every right row without a match. -/
def dfOuterJoin (df b : GoDataFrame) (keys : List String) : GoDataFrame :=
  if keys.isEmpty then { columns := [], ncols := 0, nrows := 0, err := some "未指定连接键" }
  else
    match joinKeyIdx df b keys with
    | .error e => { columns := [], ncols := 0, nrows := 0, err := some e }
    | .ok (iKeysA, iKeysB) =>
      let iNotKeysA := notKeyIdx df.ncols iKeysA
      let iNotKeysB := notKeyIdx b.ncols iKeysB
      let afterLeft := (List.range df.nrows).foldl
        (fun cols i =>
          let st := (List.range b.nrows).foldl
            (fun (st : List GoSeries × Bool) j =>
              if matchKeys df b iKeysA iKeysB i j then
                (appendOptRow st.1 (joinMatchRow df b iKeysA iNotKeysA iNotKeysB i j), true)
              else st)
            (cols, false)
          if st.2 then st.1
          else appendOptRow st.1 (joinLeftPadRow df iKeysA iNotKeysA iNotKeysB i))
        (joinInitCols df b iKeysA iNotKeysA iNotKeysB)
      let final := (List.range b.nrows).foldl
        (fun cols j =>
          if (List.range df.nrows).any (fun i => matchKeys df b iKeysA iKeysB i j) then cols
          else appendOptRow cols (joinRightPadRow b iKeysB iNotKeysA iNotKeysB j))
        afterLeft
      dfNew final

/-- `DataFrame.CrossJoin`: the Cartesian product.  Note: unlike most
DataFrame methods, there is no `df.Err` check. -/
def dfCrossJoin (df b : GoDataFrame) : GoDataFrame :=
  let init :=
    (List.range df.ncols).map (fun i => seriesEmpty (df.columns.getD i dummySeries)) ++
    (List.range b.ncols).map (fun i => seriesEmpty (b.columns.getD i dummySeries))
  let final := (List.range df.nrows).foldl
    (fun cols i =>
      (List.range b.nrows).foldl
        (fun cols j =>
          appendOptRow cols
            ((List.range df.ncols).map (fun ii => some (elemAt df ii i)) ++
              (List.range b.ncols).map (fun ii => some (elemAt b ii j))))
        cols)
    init
  dfNew final


/-! ### Definitions used to state the theorems -/

/-- Well-formedness of a Series: every element has the Series' declared kind.
Every Series built by `seriesNew` — hence every Series the library
constructs — satisfies this, since `Set` preserves the receiver's kind. -/
def seriesWF (s : GoSeries) : Bool := s.elements.all (fun e => elemKind e = s.t)

/-- The non-missing elements of `s` as `Order(false)` arranges them: the
ascending prefix of `Subset(Order(false))`. -/
def ascElems (s : GoSeries) : List GoElement :=
  (stableSort (orderLt false) (s.elements.enum.filter (fun p => !elemIsNA p.2))).map (·.2)

/-- Invariant of the `fixColnames` assignment loops: any two equal entries sit
at positions still pending assignment (`P`). -/
def Pgood (cur : List String) (P : List Nat) : Prop :=
  ∀ i j, i < cur.length → j < cur.length → i ≠ j →
    cur.getD i "" = cur.getD j "" → i ∈ P ∧ j ∈ P

/-! ## Supporting lemmas -/

theorem valRev_digitsRevAux : ∀ fuel n, n < 10 ^ fuel → valRev (digitsRevAux fuel n) = n := by
  intro fuel
  induction fuel with
  | zero => intro n h; simp at h; simp [digitsRevAux, valRev, h]
  | succ f ih =>
    intro n h
    by_cases h10 : n < 10
    · simp [digitsRevAux, h10, valRev]
    · have hdiv : n / 10 < 10 ^ f := by
        apply Nat.div_lt_of_lt_mul
        calc n < 10 ^ (f + 1) := h
          _ = 10 * 10 ^ f := by ring
      simp only [digitsRevAux, h10, if_false, valRev]
      rw [ih _ hdiv]
      exact Nat.mod_add_div n 10

theorem valRev_digitsRev (n : Nat) : valRev (digitsRev n) = n := by
  apply valRev_digitsRevAux
  calc n < 10 ^ n := Nat.lt_pow_self (by norm_num) n
    _ ≤ 10 ^ (n + 1) := Nat.pow_le_pow_right (by norm_num) (Nat.le_succ n)

theorem digitsRev_injective : Function.Injective digitsRev := by
  intro a b h
  have := congrArg valRev h
  rwa [valRev_digitsRev, valRev_digitsRev] at this

theorem digitsRevAux_lt10 : ∀ fuel n, ∀ d ∈ digitsRevAux fuel n, d < 10 := by
  intro fuel
  induction fuel with
  | zero => intro n d hd; simp [digitsRevAux] at hd
  | succ f ih =>
    intro n d hd
    by_cases h10 : n < 10
    · simp [digitsRevAux, h10] at hd; omega
    · simp only [digitsRevAux, h10, if_false, List.mem_cons] at hd
      rcases hd with h | h
      · subst h; exact Nat.mod_lt _ (by norm_num)
      · exact ih _ _ h

theorem digitVal_digitChar {d : Nat} (h : d < 10) : digitVal (digitChar d) = d := by
  interval_cases d <;> rfl

theorem decimalRepr_injective : Function.Injective decimalRepr := by
  intro a b h
  apply digitsRev_injective
  have hdata : ((digitsRev a).reverse.map digitChar) = ((digitsRev b).reverse.map digitChar) := by
    have := congrArg String.data h
    simpa [decimalRepr] using this
  have hva := congrArg (List.map digitVal) hdata
  rw [List.map_map, List.map_map] at hva
  have norm : ∀ n : Nat, ((digitsRev n).reverse.map (digitVal ∘ digitChar)) =
      (digitsRev n).reverse := by
    intro n
    have hcong : ∀ d ∈ (digitsRev n).reverse, (digitVal ∘ digitChar) d = id d := by
      intro d hd
      have : d ∈ digitsRev n := List.mem_reverse.mp hd
      simpa using digitVal_digitChar (digitsRevAux_lt10 _ _ _ this)
    rw [List.map_congr_left hcong, List.map_id]
  rw [norm, norm] at hva
  exact List.reverse_injective hva

/-! ### Missing elements fail every conversion -/

theorem elemInt_of_isNA {b : GoElement} (h : elemIsNA b = true) : elemInt b = none := by
  rcases b with ⟨p, n⟩ | ⟨p, n⟩ | ⟨p, n⟩ | ⟨p, n⟩ <;>
    simp [elemIsNA] at h <;> simp [elemInt, h]

theorem elemBool_of_isNA {b : GoElement} (h : elemIsNA b = true) : elemBool b = none := by
  rcases b with ⟨p, n⟩ | ⟨p, n⟩ | ⟨p, n⟩ | ⟨p, n⟩ <;>
    simp [elemIsNA] at h <;> simp [elemBool, h]

theorem elemFloat_of_isNA {b : GoElement} (h : elemIsNA b = true) : elemFloat b = .nan := by
  rcases b with ⟨p, n⟩ | ⟨p, n⟩ | ⟨p, n⟩ | ⟨p, n⟩ <;>
    simp [elemIsNA] at h <;> simp [elemFloat, h]

/-! ### Generic facts about the stable insertion sort -/

section SortLemmas

variable {α : Type} (lt : α → α → Bool)

theorem insertOrd_perm (acc : List α) (x : α) : List.Perm (insertOrd lt acc x) (x :: acc) := by
  induction acc with
  | nil => simp [insertOrd]
  | cons y ys ih =>
    by_cases h : lt x y = true
    · simp [insertOrd, h]
    · simp only [insertOrd, h, if_neg, Bool.not_eq_true] at *
      exact (ih.cons y).trans (List.Perm.swap x y ys)

theorem stableSort_aux_perm (l : List α) :
    ∀ acc, List.Perm (l.foldl (insertOrd lt) acc) (acc ++ l) := by
  induction l with
  | nil => intro acc; simp
  | cons x xs ih =>
    intro acc
    exact (ih (insertOrd lt acc x)).trans
      ((List.Perm.append_right xs (insertOrd_perm lt acc x)).trans List.perm_middle.symm)

theorem stableSort_perm (l : List α) : List.Perm (stableSort lt l) l := by
  simpa [stableSort] using stableSort_aux_perm lt l []

variable (Good : α → Prop)

theorem insertOrd_sorted
    (hasym : ∀ {a b}, Good a → Good b → lt a b = true → lt b a = false)
    (hcotr : ∀ {a b c}, Good a → Good b → Good c → lt c a = true → lt c b = true ∨ lt b a = true)
    {acc : List α} {x : α} (hga : ∀ z ∈ acc, Good z) (hgx : Good x)
    (hacc : acc.Pairwise (fun a b => lt b a = false)) :
    (insertOrd lt acc x).Pairwise (fun a b => lt b a = false) := by
  induction acc with
  | nil => simp [insertOrd]
  | cons y ys ih =>
    have hgy : Good y := hga y (by simp)
    have hgys : ∀ z ∈ ys, Good z := fun z hz => hga z (by simp [hz])
    rcases List.pairwise_cons.mp hacc with ⟨hyys, hys⟩
    by_cases h : lt x y = true
    · simp only [insertOrd, h, if_pos]
      refine List.pairwise_cons.mpr ⟨?_, hacc⟩
      intro z hz
      rcases List.mem_cons.mp hz with rfl | hzys
      · exact hasym hgx hgy h
      · by_contra hzx
        have hzx2 : lt z x = true := by
          cases hlt : lt z x
          · exact absurd hlt hzx
          · rfl
        rcases hcotr hgx hgy (hgys z hzys) hzx2 with hzy | hyx
        · exact absurd hzy (by simp [hyys z hzys])
        · exact absurd hyx (by simp [hasym hgx hgy h])
    · have h2 : lt x y = false := by
        cases hlt : lt x y
        · rfl
        · exact absurd hlt h
      simp only [insertOrd, h2, Bool.false_eq_true, if_neg, not_false_iff]
      refine List.pairwise_cons.mpr ⟨?_, ih hgys hys⟩
      intro z hz
      have hzmem : z = x ∨ z ∈ ys := by
        have := (insertOrd_perm lt ys x).mem_iff.mp hz
        simpa using this
      rcases hzmem with rfl | hzys
      · exact h2
      · exact hyys z hzys

theorem stableSort_aux_sorted
    (hasym : ∀ {a b}, Good a → Good b → lt a b = true → lt b a = false)
    (hcotr : ∀ {a b c}, Good a → Good b → Good c → lt c a = true → lt c b = true ∨ lt b a = true) :
    ∀ (l acc : List α), (∀ z ∈ acc, Good z) → (∀ z ∈ l, Good z) →
    acc.Pairwise (fun a b => lt b a = false) →
    (l.foldl (insertOrd lt) acc).Pairwise (fun a b => lt b a = false) := by
  intro l
  induction l with
  | nil => intro acc hga _ hacc; exact hacc
  | cons x xs ih =>
    intro acc hga hgl hacc
    have hgx : Good x := hgl x (by simp)
    have hgxs : ∀ z ∈ xs, Good z := fun z hz => hgl z (by simp [hz])
    have hga2 : ∀ z ∈ insertOrd lt acc x, Good z := by
      intro z hz
      have hzmem : z = x ∨ z ∈ acc := by
        have := (insertOrd_perm lt acc x).mem_iff.mp hz
        simpa using this
      rcases hzmem with rfl | hzacc
      · exact hgx
      · exact hga z hzacc
    exact ih _ hga2 hgxs (insertOrd_sorted lt Good hasym hcotr hga hgx hacc)

theorem stableSort_sorted
    (hasym : ∀ {a b}, Good a → Good b → lt a b = true → lt b a = false)
    (hcotr : ∀ {a b c}, Good a → Good b → Good c → lt c a = true → lt c b = true ∨ lt b a = true)
    (l : List α) (hgl : ∀ z ∈ l, Good z) :
    (stableSort lt l).Pairwise (fun a b => lt b a = false) :=
  stableSort_aux_sorted lt Good hasym hcotr l [] (by simp) hgl (by simp)

end SortLemmas

/-- Two sorted lists that are permutations of each other are equal, given
antisymmetry of the sortedness relation on the first list's members. -/
theorem eq_of_perm_of_pairwise {α : Type} {R : α → α → Prop} :
    ∀ {l₁ l₂ : List α}, List.Perm l₁ l₂ → l₁.Pairwise R → l₂.Pairwise R →
      (∀ a ∈ l₁, ∀ b ∈ l₁, R a b → R b a → a = b) → l₁ = l₂ := by
  intro l₁
  induction l₁ with
  | nil => intro l₂ hp _ _ _; simpa using hp.symm.eq_nil
  | cons a t₁ ih =>
    intro l₂ hp h₁ h₂ hanti
    rcases l₂ with _ | ⟨b, t₂⟩
    · exact absurd hp.eq_nil (by simp)
    · have hab : a = b := by
        by_cases hne : a = b
        · exact hne
        · have hamem : a ∈ b :: t₂ := hp.subset (by simp)
          have hbmem : b ∈ a :: t₁ := hp.symm.subset (by simp)
          have hat₂ : a ∈ t₂ := by
            rcases List.mem_cons.mp hamem with h | h
            · exact absurd h hne
            · exact h
          have hbt₁ : b ∈ t₁ := by
            rcases List.mem_cons.mp hbmem with h | h
            · exact absurd h.symm hne
            · exact h
          have hRab : R a b := (List.pairwise_cons.mp h₁).1 b hbt₁
          have hRba : R b a := (List.pairwise_cons.mp h₂).1 a hat₂
          exact hanti a (by simp) b (by simp [hbt₁]) hRab hRba
      subst hab
      have hperm : List.Perm t₁ t₂ := hp.cons_inv
      have ht₁ := (List.pairwise_cons.mp h₁).2
      have ht₂ := (List.pairwise_cons.mp h₂).2
      have hanti2 : ∀ x ∈ t₁, ∀ y ∈ t₁, R x y → R y x → x = y := by
        intro x hx y hy
        exact hanti x (by simp [hx]) y (by simp [hy])
      rw [ih hperm ht₁ ht₂ hanti2]

/-! ### `Less` is a strict linear order on same-kind non-missing elements -/

theorem GoFloat.ltB_asymm : ∀ {a b : GoFloat}, a.ltB b = true → b.ltB a = false
  | .nan, _, h => by simp [GoFloat.ltB] at h
  | .fin _, .nan, h => by simp [GoFloat.ltB] at h
  | .inf _, .nan, h => by simp [GoFloat.ltB] at h
  | .fin qa, .fin qb, h => by
    simp only [GoFloat.ltB, decide_eq_true_eq] at h
    simp only [GoFloat.ltB, decide_eq_false_iff_not, not_lt]
    exact h.le
  | .fin _, .inf t, h => by
    simp only [GoFloat.ltB] at h
    simp [GoFloat.ltB, h]
  | .inf s, .fin _, h => by
    simp only [GoFloat.ltB, Bool.not_eq_true'] at h
    simp [GoFloat.ltB, h]
  | .inf s, .inf t, h => by
    cases s <;> cases t <;> simp_all [GoFloat.ltB]

theorem GoFloat.ltB_cotrans : ∀ {a b c : GoFloat}, b.isNaN = false →
    c.ltB a = true → c.ltB b = true ∨ b.ltB a = true
  | _, .nan, _, hb, _ => by simp [GoFloat.isNaN] at hb
  | .nan, _, c, _, h => by cases c <;> simp [GoFloat.ltB] at h
  | .fin _, _, .nan, _, h => by simp [GoFloat.ltB] at h
  | .inf _, _, .nan, _, h => by simp [GoFloat.ltB] at h
  | .fin qa, .fin qb, .fin qc, _, h => by
    simp only [GoFloat.ltB, decide_eq_true_eq] at h ⊢
    rcases lt_or_le qc qb with h2 | h2
    · exact Or.inl h2
    · exact Or.inr (lt_of_le_of_lt h2 h)
  | .fin qa, .inf t, .fin qc, _, h => by cases t <;> simp [GoFloat.ltB]
  | .inf s, .fin qb, .fin qc, _, h => by
    cases s <;> simp_all [GoFloat.ltB]
  | .inf s, .inf t, .fin qc, _, h => by cases s <;> cases t <;> simp_all [GoFloat.ltB]
  | .fin qa, .fin qb, .inf sc, _, h => by cases sc <;> simp_all [GoFloat.ltB]
  | .fin qa, .inf t, .inf sc, _, h => by cases t <;> cases sc <;> simp_all [GoFloat.ltB]
  | .inf s, .fin qb, .inf sc, _, h => by cases s <;> cases sc <;> simp_all [GoFloat.ltB]
  | .inf s, .inf t, .inf sc, _, h => by cases s <;> cases t <;> cases sc <;> simp_all [GoFloat.ltB]

theorem GoFloat.ltB_antisymm : ∀ {a b : GoFloat}, a.isNaN = false → b.isNaN = false →
    a.ltB b = false → b.ltB a = false → a = b
  | .nan, _, ha, _, _, _ => by simp [GoFloat.isNaN] at ha
  | _, .nan, _, hb, _, _ => by simp [GoFloat.isNaN] at hb
  | .fin qa, .fin qb, _, _, hab, hba => by
    simp only [GoFloat.ltB, decide_eq_false_iff_not, not_lt] at hab hba
    exact congrArg GoFloat.fin (le_antisymm hba hab)
  | .fin _, .inf t, _, _, hab, hba => by cases t <;> simp_all [GoFloat.ltB]
  | .inf s, .fin _, _, _, hab, hba => by cases s <;> simp_all [GoFloat.ltB]
  | .inf s, .inf t, _, _, hab, hba => by cases s <;> cases t <;> simp_all [GoFloat.ltB]

theorem elemLess_asymm : ∀ {a b : GoElement}, elemKind a = elemKind b →
    elemIsNA a = false → elemIsNA b = false → elemLess a b = true → elemLess b a = false
  | .str pa na, .str pb nb, _, ha, hb, h => by
    simp only [elemIsNA] at ha hb
    subst ha; subst hb
    simp [elemLess, elemIsNA, elemString] at h ⊢
    exact le_of_lt h
  | .int pa na, .int pb nb, _, ha, hb, h => by
    simp only [elemIsNA] at ha hb
    subst ha; subst hb
    simp [elemLess, elemInt] at h ⊢
    omega
  | .flt pa na, .flt pb nb, _, ha, hb, h => by
    simp only [elemIsNA, Bool.or_eq_false_iff] at ha hb
    obtain ⟨ha1, ha2⟩ := ha
    obtain ⟨hb1, hb2⟩ := hb
    subst ha1; subst hb1
    simp [elemLess, elemFloat, elemIsNA, ha2, hb2] at h ⊢
    exact GoFloat.ltB_asymm h
  | .boo pa na, .boo pb nb, _, ha, hb, h => by
    simp only [elemIsNA] at ha hb
    subst ha; subst hb
    cases pa <;> cases pb <;> simp [elemLess, elemBool] at h ⊢
  | .str _ _, .int _ _, hk, _, _, _ | .str _ _, .flt _ _, hk, _, _, _
  | .str _ _, .boo _ _, hk, _, _, _ | .int _ _, .str _ _, hk, _, _, _
  | .int _ _, .flt _ _, hk, _, _, _ | .int _ _, .boo _ _, hk, _, _, _
  | .flt _ _, .str _ _, hk, _, _, _ | .flt _ _, .int _ _, hk, _, _, _
  | .flt _ _, .boo _ _, hk, _, _, _ | .boo _ _, .str _ _, hk, _, _, _
  | .boo _ _, .int _ _, hk, _, _, _ | .boo _ _, .flt _ _, hk, _, _, _ => by
    simp [elemKind] at hk

theorem elemLess_cotrans : ∀ {a b c : GoElement}, elemKind a = elemKind b →
    elemKind c = elemKind b → elemIsNA a = false → elemIsNA b = false → elemIsNA c = false →
    elemLess c a = true → elemLess c b = true ∨ elemLess b a = true
  | .str pa na, .str pb nb, .str pc nc, _, _, ha, hb, hc, h => by
    simp only [elemIsNA] at ha hb hc
    subst ha; subst hb; subst hc
    simp [elemLess, elemIsNA, elemString] at h ⊢
    rcases lt_or_le pc.data pb.data with h2 | h2
    · exact Or.inl h2
    · exact Or.inr (lt_of_le_of_lt h2 h)
  | .int pa na, .int pb nb, .int pc nc, _, _, ha, hb, hc, h => by
    simp only [elemIsNA] at ha hb hc
    subst ha; subst hb; subst hc
    simp [elemLess, elemInt] at h ⊢
    omega
  | .flt pa na, .flt pb nb, .flt pc nc, _, _, ha, hb, hc, h => by
    simp only [elemIsNA, Bool.or_eq_false_iff] at ha hb hc
    obtain ⟨ha1, ha2⟩ := ha
    obtain ⟨hb1, hb2⟩ := hb
    obtain ⟨hc1, hc2⟩ := hc
    subst ha1; subst hb1; subst hc1
    simp [elemLess, elemFloat, elemIsNA, ha2, hb2, hc2] at h ⊢
    exact GoFloat.ltB_cotrans hb2 h
  | .boo pa na, .boo pb nb, .boo pc nc, _, _, ha, hb, hc, h => by
    simp only [elemIsNA] at ha hb hc
    subst ha; subst hb; subst hc
    cases pa <;> cases pb <;> cases pc <;> simp [elemLess, elemBool] at h ⊢
  | .str _ _, .int _ _, _, hk, _, _, _, _, _ | .str _ _, .flt _ _, _, hk, _, _, _, _, _
  | .str _ _, .boo _ _, _, hk, _, _, _, _, _ | .int _ _, .str _ _, _, hk, _, _, _, _, _
  | .int _ _, .flt _ _, _, hk, _, _, _, _, _ | .int _ _, .boo _ _, _, hk, _, _, _, _, _
  | .flt _ _, .str _ _, _, hk, _, _, _, _, _ | .flt _ _, .int _ _, _, hk, _, _, _, _, _
  | .flt _ _, .boo _ _, _, hk, _, _, _, _, _ | .boo _ _, .str _ _, _, hk, _, _, _, _, _
  | .boo _ _, .int _ _, _, hk, _, _, _, _, _ | .boo _ _, .flt _ _, _, hk, _, _, _, _, _ => by
    simp [elemKind] at hk
  | .str _ _, .str _ _, .int _ _, _, hk, _, _, _, _
  | .str _ _, .str _ _, .flt _ _, _, hk, _, _, _, _
  | .str _ _, .str _ _, .boo _ _, _, hk, _, _, _, _
  | .int _ _, .int _ _, .str _ _, _, hk, _, _, _, _
  | .int _ _, .int _ _, .flt _ _, _, hk, _, _, _, _
  | .int _ _, .int _ _, .boo _ _, _, hk, _, _, _, _
  | .flt _ _, .flt _ _, .str _ _, _, hk, _, _, _, _
  | .flt _ _, .flt _ _, .int _ _, _, hk, _, _, _, _
  | .flt _ _, .flt _ _, .boo _ _, _, hk, _, _, _, _
  | .boo _ _, .boo _ _, .str _ _, _, hk, _, _, _, _
  | .boo _ _, .boo _ _, .int _ _, _, hk, _, _, _, _
  | .boo _ _, .boo _ _, .flt _ _, _, hk, _, _, _, _ => by
    simp [elemKind] at hk

theorem elemLess_antisymm : ∀ {a b : GoElement}, elemKind a = elemKind b →
    elemIsNA a = false → elemIsNA b = false →
    elemLess a b = false → elemLess b a = false → a = b
  | .str pa na, .str pb nb, _, ha, hb, hab, hba => by
    simp only [elemIsNA] at ha hb
    subst ha; subst hb
    simp [elemLess, elemIsNA, elemString] at hab hba
    simp only [GoElement.str.injEq, and_true]
    exact String.toList_inj.mp (le_antisymm hba hab)
  | .int pa na, .int pb nb, _, ha, hb, hab, hba => by
    simp only [elemIsNA] at ha hb
    subst ha; subst hb
    simp [elemLess, elemInt] at hab hba
    simp only [GoElement.int.injEq, and_true]
    omega
  | .flt pa na, .flt pb nb, _, ha, hb, hab, hba => by
    simp only [elemIsNA, Bool.or_eq_false_iff] at ha hb
    obtain ⟨ha1, ha2⟩ := ha
    obtain ⟨hb1, hb2⟩ := hb
    subst ha1; subst hb1
    simp [elemLess, elemFloat, elemIsNA, ha2, hb2] at hab hba
    simp only [GoElement.flt.injEq, and_true]
    exact GoFloat.ltB_antisymm ha2 hb2 hab hba
  | .boo pa na, .boo pb nb, _, ha, hb, hab, hba => by
    simp only [elemIsNA] at ha hb
    subst ha; subst hb
    simp only [GoElement.boo.injEq, and_true]
    cases pa <;> cases pb <;> simp [elemLess, elemBool] at hab hba ⊢
  | .str _ _, .int _ _, hk, _, _, _, _ | .str _ _, .flt _ _, hk, _, _, _, _
  | .str _ _, .boo _ _, hk, _, _, _, _ | .int _ _, .str _ _, hk, _, _, _, _
  | .int _ _, .flt _ _, hk, _, _, _, _ | .int _ _, .boo _ _, hk, _, _, _, _
  | .flt _ _, .str _ _, hk, _, _, _, _ | .flt _ _, .int _ _, hk, _, _, _, _
  | .flt _ _, .boo _ _, hk, _, _, _, _ | .boo _ _, .str _ _, hk, _, _, _, _
  | .boo _ _, .int _ _, hk, _, _, _, _ | .boo _ _, .flt _ _, hk, _, _, _, _ => by
    simp [elemKind] at hk

/-! ## Claim theorems -/

/-- C2: for every pair of elements with at least one side missing, each of the
six relational comparisons `Eq, Neq, Less, LessEq, Greater, GreaterEq`
returns false (the right operand being coerced into the left operand's kind
by the comparison methods themselves). -/
theorem comparison_missing_false (a b : GoElement)
    (h : elemIsNA a = true ∨ elemIsNA b = true) :
    elemEq a b = false ∧ elemNeq a b = false ∧ elemLess a b = false ∧
      elemLessEq a b = false ∧ elemGreater a b = false ∧ elemGreaterEq a b = false := by
  rcases h with h | h
  · rcases a with ⟨p, n⟩ | ⟨p, n⟩ | ⟨p, n⟩ | ⟨p, n⟩
    · simp [elemIsNA] at h
      simp [elemEq, elemNeq, elemLess, elemLessEq, elemGreater, elemGreaterEq, h]
    · simp [elemIsNA] at h
      cases hb : elemInt b <;>
        simp [elemEq, elemNeq, elemLess, elemLessEq, elemGreater, elemGreaterEq, h, hb]
    · simp only [elemIsNA] at h
      simp [elemEq, elemNeq, elemLess, elemLessEq, elemGreater, elemGreaterEq, h]
    · simp [elemIsNA] at h
      cases hb : elemBool b <;>
        simp [elemEq, elemNeq, elemLess, elemLessEq, elemGreater, elemGreaterEq, h, hb]
  · have hi := elemInt_of_isNA h
    have hbo := elemBool_of_isNA h
    have hf := elemFloat_of_isNA h
    rcases a with ⟨p, n⟩ | ⟨p, n⟩ | ⟨p, n⟩ | ⟨p, n⟩ <;>
      simp [elemEq, elemNeq, elemLess, elemLessEq, elemGreater, elemGreaterEq, h, hi, hbo, hf,
        GoFloat.isNaN]

/-- Witness for C2 at a concrete pair: a missing int element compared against
a present one. -/
theorem comparison_missing_false_witness :
    (elemIsNA (GoElement.int 0 true) = true ∨ elemIsNA (GoElement.int 5 false) = true) ∧
      (elemEq (GoElement.int 0 true) (GoElement.int 5 false) = false ∧
        elemNeq (GoElement.int 0 true) (GoElement.int 5 false) = false ∧
        elemLess (GoElement.int 0 true) (GoElement.int 5 false) = false ∧
        elemLessEq (GoElement.int 0 true) (GoElement.int 5 false) = false ∧
        elemGreater (GoElement.int 0 true) (GoElement.int 5 false) = false ∧
        elemGreaterEq (GoElement.int 0 true) (GoElement.int 5 false) = false) :=
  ⟨Or.inl (by decide), comparison_missing_false _ _ (Or.inl (by decide))⟩

/-- C4, counterexample: a real-kind element whose stored payload is the
canonical missing-encoding NaN is reported missing by `IsNA` even though it
was never explicitly tagged (`nan` flag false) — refuting the claim for the
real kind. -/
theorem float_nan_payload_isNA : elemIsNA (GoElement.flt GoFloat.nan false) = true := by
  decide

/-- C4, amended: an untagged element whose payload is the canonical
missing-encoding is reported non-missing for the integer, text and boolean
kinds; for the real kind `IsNA` additionally reports any NaN payload as
missing, tagged or not. -/
theorem untagged_payload_isNA (i : Int) (s : String) (b : Bool) (q : GoFloat) :
    elemIsNA (.int i false) = false ∧ elemIsNA (.str s false) = false ∧
      elemIsNA (.boo b false) = false ∧ elemIsNA (.flt q false) = q.isNaN := by
  simp [elemIsNA]

/-- C9: `Series.Set` is not atomic on error — with indexes `[0, 5]` against a
three-element column (and two new values, matching the index count), the
in-range write at position 0 lands before the out-of-range index 5 is
rejected, so the returned column both reports the error and differs from the
original. -/
theorem set_partial_write_on_error :
    seriesSet (seriesNew (.ints [10, 20, 30]) .int "s") (.ints [0, 5])
        (seriesNew (.ints [1, 2]) .int "s") =
      { name := "s", t := .int,
        elements := [.int 1 false, .int 20 false, .int 30 false],
        err := some "set error: 索引超出范围" } ∧
      [GoElement.int 1 false, .int 20 false, .int 30 false] ≠
        (seriesNew (.ints [10, 20, 30]) .int "s").elements := by
  decide

/-- C10: `SetNames` assigns the supplied names verbatim without the fixup
pass, so duplicate names survive: after `SetNames("x", "x")` succeeds (no
error), the column names are `["x", "x"]`, which are not unique. -/
theorem setNames_allows_duplicate_names :
    (dfSetNames (dfNew [seriesNew (.ints [1]) .int "a", seriesNew (.ints [2]) .int "b"])
        ["x", "x"]).1 = none ∧
      dfNames (dfSetNames (dfNew [seriesNew (.ints [1]) .int "a",
        seriesNew (.ints [2]) .int "b"]) ["x", "x"]).2 = ["x", "x"] ∧
      ¬ (dfNames (dfSetNames (dfNew [seriesNew (.ints [1]) .int "a",
        seriesNew (.ints [2]) .int "b"]) ["x", "x"]).2).Nodup := by
  decide

/-- C6: joining left `{id:[1,2], v:["a","b"]}` with right `{id:[2,3],
w:["x","y"]}` on `id`: `InnerJoin` gives the single row `(2,"b","x")`;
`LeftJoin` gives `(1,"a",missing)` and `(2,"b","x")` (the unmatched left row
emitting exactly one row with the right non-key column padded missing);
`OuterJoin` gives those two rows plus `(3,missing,"y")`. -/
theorem join_concrete_scenario :
    dfInnerJoin (dfNew [seriesNew (.ints [1, 2]) .int "id",
        seriesNew (.strs ["a", "b"]) .string "v"])
      (dfNew [seriesNew (.ints [2, 3]) .int "id",
        seriesNew (.strs ["x", "y"]) .string "w"]) ["id"] =
      { columns := [{ name := "id", t := .int, elements := [.int 2 false], err := none },
          { name := "v", t := .string, elements := [.str "b" false], err := none },
          { name := "w", t := .string, elements := [.str "x" false], err := none }],
        ncols := 3, nrows := 1, err := none } ∧
    dfLeftJoin (dfNew [seriesNew (.ints [1, 2]) .int "id",
        seriesNew (.strs ["a", "b"]) .string "v"])
      (dfNew [seriesNew (.ints [2, 3]) .int "id",
        seriesNew (.strs ["x", "y"]) .string "w"]) ["id"] =
      { columns := [
          { name := "id", t := .int, elements := [.int 1 false, .int 2 false], err := none },
          { name := "v", t := .string, elements := [.str "a" false, .str "b" false],
            err := none },
          { name := "w", t := .string, elements := [.str "" true, .str "x" false],
            err := none }],
        ncols := 3, nrows := 2, err := none } ∧
    dfOuterJoin (dfNew [seriesNew (.ints [1, 2]) .int "id",
        seriesNew (.strs ["a", "b"]) .string "v"])
      (dfNew [seriesNew (.ints [2, 3]) .int "id",
        seriesNew (.strs ["x", "y"]) .string "w"]) ["id"] =
      { columns := [
          { name := "id", t := .int, elements := [.int 1 false, .int 2 false, .int 3 false],
            err := none },
          { name := "v", t := .string, elements := [.str "a" false, .str "b" false, .str "" true],
            err := none },
          { name := "w", t := .string, elements := [.str "" true, .str "x" false, .str "y" false],
            err := none }],
        ncols := 3, nrows := 3, err := none } ∧
    elemIsNA (GoElement.str "" true) = true := by
  decide

/-- C8: `Rolling(2).Mean()` over the integer Series `[1,2,3,4]` is the
real-valued Series named `"Mean"` holding `[missing, 1.5, 2.5, 3.5]`, the
first entry being the NaN mean of the empty leading block (and `IsNA` treats
the NaN-payload element as missing). -/
theorem rolling_mean_concrete :
    rollingMean (seriesRolling (seriesNew (.ints [1, 2, 3, 4]) .int "") 2) =
      { name := "Mean", t := .float,
        elements := [.flt .nan false, .flt (.fin (3 / 2)) false, .flt (.fin (5 / 2)) false,
          .flt (.fin (7 / 2)) false],
        err := none } ∧
      elemIsNA (GoElement.flt GoFloat.nan false) = true := by
  constructor
  · simp [rollingMean, rollingGetBlocks, seriesRolling, seriesNew, seriesEmpty, seriesSubset,
      seriesAppend, seriesMean, statMean, statSum, seriesFloat, elemFloat, elemSet, zeroElem,
      parseIndexes, elemIsNA, GoFloat.add, GoFloat.div, List.range_succ]
    norm_num
  · decide

/-- C1, counterexample: `CrossJoin` performs no error check, so a Table
carrying an error (here the construction failure of `New` with no columns)
does not propagate it — the cross join with a valid one-column Table comes
back with no error at all, not the same error. -/
theorem crossJoin_drops_error :
    (dfNew []).err = some "empty DataFrame" ∧
      (dfCrossJoin (dfNew []) (dfNew [seriesNew (.ints [1]) .int "id"])).err = none := by
  decide

/-- C1, amended: sticky propagation does hold for the Column operations
`Subset`, `Compare`, `Append` (each returns the receiver unchanged when it
already carries an error) and for the Table operations that begin with an
error check, such as `Subset`; but `CrossJoin` and `GroupBy` perform no such
check and do not propagate the carried error. -/
theorem sticky_error_propagation (s : GoSeries) (df : GoDataFrame) (e e2 : String)
    (hs : s.err = some e) (hdf : df.err = some e2) (idx idx2 : GoIndexes)
    (c : Comparator) (v : Comparando) (vals : NewInput) :
    seriesSubset s idx = s ∧ seriesCompare s c v = some s ∧ seriesAppend s vals = s ∧
      dfSubset df idx2 = df := by
  have hs2 : s.err.isSome = true := by simp [hs]
  have hdf2 : df.err.isSome = true := by simp [hdf]
  refine ⟨?_, ?_, ?_, ?_⟩ <;>
    simp [seriesSubset, seriesCompare, seriesAppend, dfSubset, hs2, hdf2]

/-- Witness for C1's amended theorem at a concrete errored Series and Table. -/
theorem sticky_error_propagation_witness :
    seriesSubset { name := "s", t := .int, elements := [], err := some "E" } (.ints [0]) =
        { name := "s", t := .int, elements := [], err := some "E" } ∧
      seriesCompare { name := "s", t := .int, elements := [], err := some "E" }
          .eq (.input (.ints [1])) =
        some { name := "s", t := .int, elements := [], err := some "E" } ∧
      seriesAppend { name := "s", t := .int, elements := [], err := some "E" } (.ints [1]) =
        { name := "s", t := .int, elements := [], err := some "E" } ∧
      dfSubset { columns := [], ncols := 0, nrows := 0, err := some "E2" } (.ints [0]) =
        { columns := [], ncols := 0, nrows := 0, err := some "E2" } :=
  sticky_error_propagation _ _ "E" "E2" rfl rfl _ _ _ _ _

/-- C3, counterexample: `Mean` has no text-kind guard — it averages the
float-coerced values, so the text column `["1", "3"]` yields the finite mean
`2`, not the NaN sentinel. -/
theorem mean_string_column_not_nan :
    seriesMean (seriesNew (.strs ["1", "3"]) .string "") = .fin 2 ∧
      GoFloat.fin 2 ≠ GoFloat.nan := by
  constructor
  · have h1 : goParseFloat "1" = some (.fin 1) := by decide
    have h3 : goParseFloat "3" = some (.fin 3) := by decide
    simp [seriesMean, statMean, statSum, seriesFloat, seriesNew, elemSet, zeroElem, elemFloat,
      h1, h3, GoFloat.add, GoFloat.div]
    norm_num
  · decide

/-- C3, amended: `Sum`, `Median` and `Quantile(p)` return the NaN sentinel for
every text-kind column and every empty column; `Mean` and `StdDev` return it
for every empty column, but on a text column they operate on the
float-coerced values (NaN only when some value fails to parse as a float). -/
theorem reductions_nan_guards (s : GoSeries) (h : s.t = .string ∨ s.elements = []) :
    seriesSum s = .nan ∧ seriesMedian s = .nan ∧ (∀ p, seriesQuantile s p = .nan) ∧
      (s.elements = [] → seriesMean s = .nan ∧ seriesStdDev s = .nan) := by
  have hguard : s.elements.length = 0 ∨ s.t = .string ∨ s.t = .bool := by
    rcases h with h | h
    · exact Or.inr (Or.inl h)
    · exact Or.inl (by simp [h])
  have hq : s.t = .string ∨ s.elements.length = 0 := by
    rcases h with h | h
    · exact Or.inl h
    · exact Or.inr (by simp [h])
  refine ⟨?_, ?_, ?_, ?_⟩
  · unfold seriesSum
    rw [if_pos hguard]
  · unfold seriesMedian
    rw [if_pos hguard]
  · intro p
    unfold seriesQuantile
    rw [if_pos hq]
  · intro hempty
    constructor
    · simp [seriesMean, statMean, statSum, seriesFloat, hempty, GoFloat.div]
    · simp [seriesStdDev, statStdDev, statVariance, statMean, statSum, seriesFloat, hempty,
        GoFloat.div, GoFloat.mul, GoFloat.sub, GoFloat.add, GoFloat.neg, GoFloat.sqrt]

/-- Witness for C3's amended theorem at the empty integer column. -/
theorem reductions_nan_guards_witness :
    seriesSum (seriesNew (.ints []) .int "x") = .nan ∧
      seriesMedian (seriesNew (.ints []) .int "x") = .nan ∧
      (∀ p, seriesQuantile (seriesNew (.ints []) .int "x") p = .nan) ∧
      ((seriesNew (.ints []) .int "x").elements = [] →
        seriesMean (seriesNew (.ints []) .int "x") = .nan ∧
          seriesStdDev (seriesNew (.ints []) .int "x") = .nan) :=
  reductions_nan_guards _ (Or.inr (by decide))

/-! ### Supporting lemmas for the Order/Subset claim -/

theorem getD_of_mem_enum {α : Type} {z : α} {l : List α} {p : Nat × α} (hp : p ∈ l.enum) :
    l.getD p.1 z = p.2 := by
  obtain ⟨i, x⟩ := p
  obtain ⟨-, hlt, hx⟩ := List.mem_enumFrom hp
  simp only [Nat.sub_zero] at hx
  show l.getD i z = x
  rw [List.getD_eq_getElem l z (by omega)]
  exact hx.symm

theorem map_snd_filter_enum {α : Type} (l : List α) (P : α → Bool) :
    ((l.enum.filter (fun p => P p.2)).map Prod.snd) = l.filter P := by
  have h1 : l.filter P = List.filter P (l.enum.map Prod.snd) := by
    rw [List.enum_map_snd]
  rw [h1, List.filter_map]
  rfl

/-- The elements `Subset(Order(reverse))` produces: the stable-sorted
non-missing elements, then the missing elements in original order. -/
theorem seriesSubset_order_elements (s : GoSeries) (herr : s.err = none) (rev : Bool) :
    (seriesSubset s (.ints (seriesOrder s rev))).elements =
      (stableSort (orderLt rev) (s.elements.enum.filter (fun p => !elemIsNA p.2))).map
          Prod.snd ++
        s.elements.filter (fun e => elemIsNA e) := by
  have hsome : s.err.isSome = false := by simp [herr]
  unfold seriesSubset
  rw [hsome]
  simp only [Bool.false_eq_true, if_false, parseIndexes]
  unfold seriesOrder seriesOrderNat
  simp only [List.map_append, List.map_map]
  congr 1
  · apply List.map_congr_left
    intro p hp
    have hmem : p ∈ s.elements.enum.filter (fun p => !elemIsNA p.2) :=
      (stableSort_perm (orderLt rev) _).subset hp
    have hmem2 : p ∈ s.elements.enum := List.mem_of_mem_filter hmem
    simpa using getD_of_mem_enum (z := zeroElem s.t) hmem2
  · rw [← map_snd_filter_enum s.elements (fun e => elemIsNA e)]
    apply List.map_congr_left
    intro p hp
    have hmem2 : p ∈ s.elements.enum := List.mem_of_mem_filter hp
    simpa using getD_of_mem_enum (z := zeroElem s.t) hmem2

/-- Non-missing kind-homogeneous pairs, the `Good` predicate for the sort
lemmas at kind `t`. -/
theorem goodPair_of_mem {s : GoSeries} (hwf : seriesWF s = true) {p : Nat × GoElement}
    (hp : p ∈ s.elements.enum.filter (fun p => !elemIsNA p.2)) :
    elemKind p.2 = s.t ∧ elemIsNA p.2 = false := by
  have hmem : p ∈ s.elements.enum := List.mem_of_mem_filter hp
  have hna := List.of_mem_filter hp
  have helem : p.2 ∈ s.elements := by
    have := List.enum_map_snd s.elements
    rw [← this]
    exact List.mem_map_of_mem Prod.snd hmem
  constructor
  · have := List.all_eq_true.mp hwf p.2 helem
    simpa using this
  · simpa using hna

/-- C5: for every (well-formed, error-free) Column `c`,
`c.Subset(c.Order(false))` consists of the non-missing elements sorted
ascending by `Less` followed by the missing elements in their original
relative order, and `c.Subset(c.Order(true))` differs from it only in the
non-missing prefix being reversed. -/
theorem order_subset_sorted (s : GoSeries) (hwf : seriesWF s = true) (herr : s.err = none) :
    (seriesSubset s (.ints (seriesOrder s false))).elements =
        ascElems s ++ s.elements.filter (fun e => elemIsNA e) ∧
      (seriesSubset s (.ints (seriesOrder s true))).elements =
        (ascElems s).reverse ++ s.elements.filter (fun e => elemIsNA e) ∧
      List.Perm (ascElems s) (s.elements.filter (fun e => !elemIsNA e)) ∧
      (ascElems s).Pairwise (fun a b => elemLess b a = false) := by
  have hgood : ∀ p ∈ s.elements.enum.filter (fun p => !elemIsNA p.2),
      elemKind p.2 = s.t ∧ elemIsNA p.2 = false :=
    fun p hp => goodPair_of_mem hwf hp
  have hasymF : ∀ {a b : Nat × GoElement},
      (elemKind a.2 = s.t ∧ elemIsNA a.2 = false) →
      (elemKind b.2 = s.t ∧ elemIsNA b.2 = false) →
      orderLt false a b = true → orderLt false b a = false := by
    intro a b ha hb h
    simp only [orderLt, Bool.false_eq_true, if_false] at h ⊢
    exact elemLess_asymm (ha.1.trans hb.1.symm) ha.2 hb.2 h
  have hcotrF : ∀ {a b c : Nat × GoElement},
      (elemKind a.2 = s.t ∧ elemIsNA a.2 = false) →
      (elemKind b.2 = s.t ∧ elemIsNA b.2 = false) →
      (elemKind c.2 = s.t ∧ elemIsNA c.2 = false) →
      orderLt false c a = true → orderLt false c b = true ∨ orderLt false b a = true := by
    intro a b c ha hb hc h
    simp only [orderLt, Bool.false_eq_true, if_false] at h ⊢
    exact elemLess_cotrans (ha.1.trans hb.1.symm) (hc.1.trans hb.1.symm) ha.2 hb.2 hc.2 h
  have hasymT : ∀ {a b : Nat × GoElement},
      (elemKind a.2 = s.t ∧ elemIsNA a.2 = false) →
      (elemKind b.2 = s.t ∧ elemIsNA b.2 = false) →
      orderLt true a b = true → orderLt true b a = false := by
    intro a b ha hb h
    simp only [orderLt, if_true] at h ⊢
    exact elemLess_asymm (hb.1.trans ha.1.symm) hb.2 ha.2 h
  have hcotrT : ∀ {a b c : Nat × GoElement},
      (elemKind a.2 = s.t ∧ elemIsNA a.2 = false) →
      (elemKind b.2 = s.t ∧ elemIsNA b.2 = false) →
      (elemKind c.2 = s.t ∧ elemIsNA c.2 = false) →
      orderLt true c a = true → orderLt true c b = true ∨ orderLt true b a = true := by
    intro a b c ha hb hc h
    simp only [orderLt, if_true] at h ⊢
    exact Or.symm
      (elemLess_cotrans (hc.1.trans hb.1.symm) (ha.1.trans hb.1.symm) hc.2 hb.2 ha.2 h)
  have hsortedAscPairs := stableSort_sorted (orderLt false)
    (fun p => elemKind p.2 = s.t ∧ elemIsNA p.2 = false)
    (fun ha hb h => hasymF ha hb h) (fun ha hb hc h => hcotrF ha hb hc h) _ hgood
  have hsortedDescPairs := stableSort_sorted (orderLt true)
    (fun p => elemKind p.2 = s.t ∧ elemIsNA p.2 = false)
    (fun ha hb h => hasymT ha hb h) (fun ha hb hc h => hcotrT ha hb hc h) _ hgood
  have hsortedAsc : (ascElems s).Pairwise (fun a b => elemLess b a = false) := by
    unfold ascElems
    rw [List.pairwise_map]
    exact hsortedAscPairs.imp (fun h => by simpa [orderLt] using h)
  have hpermAsc : List.Perm (ascElems s) (s.elements.filter (fun e => !elemIsNA e)) := by
    unfold ascElems
    rw [← map_snd_filter_enum s.elements (fun e => !elemIsNA e)]
    exact (stableSort_perm (orderLt false) _).map Prod.snd
  have hpermDesc :
      List.Perm ((stableSort (orderLt true)
          (s.elements.enum.filter (fun p => !elemIsNA p.2))).map Prod.snd)
        (s.elements.filter (fun e => !elemIsNA e)) := by
    rw [← map_snd_filter_enum s.elements (fun e => !elemIsNA e)]
    exact (stableSort_perm (orderLt true) _).map Prod.snd
  have hsortedDesc : ((stableSort (orderLt true)
      (s.elements.enum.filter (fun p => !elemIsNA p.2))).map Prod.snd).Pairwise
        (fun a b => elemLess a b = false) := by
    rw [List.pairwise_map]
    exact hsortedDescPairs.imp (fun h => by simpa [orderLt] using h)
  have hsortedRev : ((ascElems s).reverse).Pairwise (fun a b => elemLess a b = false) := by
    rw [List.pairwise_reverse]
    exact hsortedAsc
  have hmemD : ∀ x ∈ (stableSort (orderLt true)
      (s.elements.enum.filter (fun p => !elemIsNA p.2))).map Prod.snd,
      elemKind x = s.t ∧ elemIsNA x = false := by
    intro x hx
    obtain ⟨p, hp, rfl⟩ := List.mem_map.mp hx
    exact hgood p ((stableSort_perm (orderLt true) _).subset hp)
  have heqRev : (stableSort (orderLt true)
      (s.elements.enum.filter (fun p => !elemIsNA p.2))).map Prod.snd =
        (ascElems s).reverse := by
    apply eq_of_perm_of_pairwise
      (hpermDesc.trans (hpermAsc.symm.trans (List.reverse_perm (ascElems s)).symm))
      hsortedDesc hsortedRev
    intro a ha b hb hab hba
    obtain ⟨hka, hna⟩ := hmemD a ha
    obtain ⟨hkb, hnb⟩ := hmemD b hb
    exact elemLess_antisymm (hka.trans hkb.symm) hna hnb hab hba
  refine ⟨?_, ?_, hpermAsc, hsortedAsc⟩
  · simpa [ascElems] using seriesSubset_order_elements s herr false
  · rw [← heqRev]
    exact seriesSubset_order_elements s herr true

/-- Witness for C5 at a concrete integer Column `[3, NaN, 1]` (built from
strings so that it contains a missing element). -/
theorem order_subset_sorted_witness :
    (seriesSubset (seriesNew (.strs ["3", "NaN", "1"]) .int "w")
        (.ints (seriesOrder (seriesNew (.strs ["3", "NaN", "1"]) .int "w") false))).elements =
        ascElems (seriesNew (.strs ["3", "NaN", "1"]) .int "w") ++
          (seriesNew (.strs ["3", "NaN", "1"]) .int "w").elements.filter
            (fun e => elemIsNA e) ∧
      (seriesSubset (seriesNew (.strs ["3", "NaN", "1"]) .int "w")
        (.ints (seriesOrder (seriesNew (.strs ["3", "NaN", "1"]) .int "w") true))).elements =
        (ascElems (seriesNew (.strs ["3", "NaN", "1"]) .int "w")).reverse ++
          (seriesNew (.strs ["3", "NaN", "1"]) .int "w").elements.filter
            (fun e => elemIsNA e) ∧
      List.Perm (ascElems (seriesNew (.strs ["3", "NaN", "1"]) .int "w"))
        ((seriesNew (.strs ["3", "NaN", "1"]) .int "w").elements.filter
          (fun e => !elemIsNA e)) ∧
      (ascElems (seriesNew (.strs ["3", "NaN", "1"]) .int "w")).Pairwise
        (fun a b => elemLess b a = false) :=
  order_subset_sorted _ (by decide) (by decide)

/-! ### Supporting lemmas for the name-fixup claim -/

theorem mkXName_injective : Function.Injective mkXName := by
  intro a b h
  apply decimalRepr_injective
  have hdata := congrArg String.data h
  simp only [mkXName, String.data_append] at hdata
  exact String.toList_inj.mp (List.append_cancel_left hdata)

theorem mkDupName_injective (name : String) : Function.Injective (mkDupName name) := by
  intro a b h
  apply decimalRepr_injective
  have hdata := congrArg String.data h
  simp only [mkDupName, String.data_append, List.append_assoc] at hdata
  exact String.toList_inj.mp (List.append_cancel_left (List.append_cancel_left hdata))

theorem proposeLoop_spec (cur : List String) (mk : Nat → String) :
    ∀ fuel counter, (∃ j < fuel, mk (counter + j) ∉ cur) →
      mk (proposeLoop cur mk counter fuel) ∉ cur := by
  intro fuel
  induction fuel with
  | zero =>
    intro counter h
    obtain ⟨j, hj, -⟩ := h
    omega
  | succ f ih =>
    intro counter h
    by_cases hmem : mk counter ∈ cur
    · have h2 : ∃ j < f, mk (counter + 1 + j) ∉ cur := by
        obtain ⟨j, hj, hfresh⟩ := h
        rcases j with _ | j2
        · exact absurd hmem (by simpa using hfresh)
        · exact ⟨j2, by omega, by
            have : counter + 1 + j2 = counter + (j2 + 1) := by omega
            rw [this]; exact hfresh⟩
      simpa [proposeLoop, hmem] using ih (counter + 1) h2
    · simp [proposeLoop, hmem]

theorem exists_fresh {mk : Nat → String} (hinj : Function.Injective mk) (cur : List String)
    (counter : Nat) : ∃ j < cur.length + 1, mk (counter + j) ∉ cur := by
  by_contra hcon
  push_neg at hcon
  set L := (List.range (cur.length + 1)).map (fun j => mk (counter + j)) with hL
  have hnodup : L.Nodup := by
    apply List.Nodup.map
    · intro a b hab
      have := hinj hab
      omega
    · exact List.nodup_range _
  have hsub : L.toFinset ⊆ cur.toFinset := by
    intro x hx
    rw [List.mem_toFinset] at hx ⊢
    obtain ⟨j, hj, rfl⟩ := List.mem_map.mp hx
    exact hcon j (by simpa using hj)
  have hcard1 : L.toFinset.card = cur.length + 1 := by
    rw [List.card_toFinset, hnodup.dedup]
    simp [hL]
  have hcard2 : cur.toFinset.card ≤ cur.length := List.toFinset_card_le cur
  have := Finset.card_le_card hsub
  omega

theorem assignFresh_spec {cur : List String} {mk : Nat → String} {counter i : Nat}
    (hinj : Function.Injective mk) :
    ∃ c, assignFresh cur mk counter i = (cur.set i (mk c), c + 1) ∧ mk c ∉ cur :=
  ⟨proposeLoop cur mk counter (cur.length + 1), rfl,
    proposeLoop_spec cur mk (cur.length + 1) counter (exists_fresh hinj cur counter)⟩

theorem getD_set_self {l : List String} {p : Nat} {a : String} (hp : p < l.length) :
    (l.set p a).getD p "" = a := by
  rw [List.getD_eq_getElem?_getD, List.getElem?_set_self hp]
  rfl

theorem getD_set_ne {l : List String} {p j : Nat} {a : String} (h : p ≠ j) :
    (l.set p a).getD j "" = l.getD j "" := by
  rw [List.getD_eq_getElem?_getD, List.getElem?_set_ne h, ← List.getD_eq_getElem?_getD]

theorem getD_mem_of_lt {l : List String} {j : Nat} (hj : j < l.length) :
    l.getD j "" ∈ l := by
  rw [List.getD_eq_getElem l "" hj]
  exact List.getElem_mem hj

theorem pgood_set {cur : List String} {P : List Nat} {p : Nat} {name : String}
    (hP : Pgood cur (p :: P)) (hfresh : name ∉ cur) : Pgood (cur.set p name) P := by
  intro i j hi hj hij heq
  rw [List.length_set] at hi hj
  by_cases hip : i = p
  · subst hip
    rw [getD_set_self hi, getD_set_ne (fun h => hij h) ] at heq
    exact absurd (heq ▸ getD_mem_of_lt hj) hfresh
  · by_cases hjp : j = p
    · subst hjp
      rw [getD_set_self hj, getD_set_ne (fun h => hip h.symm)] at heq
      exact absurd (heq ▸ getD_mem_of_lt hi) hfresh
    · rw [getD_set_ne (fun h => hip h.symm), getD_set_ne (fun h => hjp h.symm)] at heq
      obtain ⟨h1, h2⟩ := hP i j hi hj hij heq
      refine ⟨?_, ?_⟩
      · rcases List.mem_cons.mp h1 with h | h
        · exact absurd h hip
        · exact h
      · rcases List.mem_cons.mp h2 with h | h
        · exact absurd h hjp
        · exact h

theorem pgood_nil_nodup {cur : List String} (h : Pgood cur []) : cur.Nodup := by
  rw [List.nodup_iff_injective_get]
  rintro ⟨i, hi⟩ ⟨j, hj⟩ hij
  by_contra hne
  have hij2 : i ≠ j := fun hh => hne (Fin.ext hh)
  have hgd : cur.getD i "" = cur.getD j "" := by
    rw [List.getD_eq_getElem cur "" hi, List.getD_eq_getElem cur "" hj]
    exact hij
  simpa using (h i j hi hj hij2 hgd).1

theorem assignMissing_length (mk : Nat → String) :
    ∀ (ms : List Nat) (cur : List String) (c : Nat),
      (assignMissing mk cur c ms).length = cur.length := by
  intro ms
  induction ms with
  | nil => intro cur c; rfl
  | cons m rest ih =>
    intro cur c
    simp only [assignMissing, assignFresh]
    rw [ih, List.length_set]

theorem assignMissing_pgood {mk : Nat → String} (hinj : Function.Injective mk) :
    ∀ (ms : List Nat) (cur : List String) (c : Nat) (P : List Nat),
      Pgood cur (ms ++ P) → Pgood (assignMissing mk cur c ms) P := by
  intro ms
  induction ms with
  | nil => intro cur c P h; exact h
  | cons m rest ih =>
    intro cur c P h
    obtain ⟨c2, heq, hfresh⟩ := @assignFresh_spec cur mk c m hinj
    show Pgood (assignMissing mk cur c (m :: rest)) P
    rw [assignMissing, heq]
    exact ih _ _ _ (pgood_set h hfresh)

theorem assignMissing_getD_not_mem (mk : Nat → String) :
    ∀ (ms : List Nat) (cur : List String) (c : Nat) {i : Nat}, i ∉ ms →
      (assignMissing mk cur c ms).getD i "" = cur.getD i "" := by
  intro ms
  induction ms with
  | nil => intro cur c i _; rfl
  | cons m rest ih =>
    intro cur c i hi
    have him : i ≠ m := fun h => hi (by simp [h])
    have hirest : i ∉ rest := fun h => hi (by simp [h])
    simp only [assignMissing, assignFresh]
    rw [ih _ _ hirest, getD_set_ne (fun h => him h.symm)]

theorem assignMissing_getD_mem {mk : Nat → String} (hinj : Function.Injective mk) :
    ∀ (ms : List Nat) (cur : List String) (c : Nat) {i : Nat}, ms.Nodup → i ∈ ms →
      i < cur.length → ∃ k, (assignMissing mk cur c ms).getD i "" = mk k := by
  intro ms
  induction ms with
  | nil => intro cur c i _ hmem; simp at hmem
  | cons m rest ih =>
    intro cur c i hnodup hmem hlen
    obtain ⟨c2, heq, -⟩ := @assignFresh_spec cur mk c m hinj
    rw [assignMissing, heq]
    rcases List.mem_cons.mp hmem with rfl | hrest
    · have hnot : i ∉ rest := (List.nodup_cons.mp hnodup).1
      refine ⟨c2, ?_⟩
      rw [assignMissing_getD_not_mem mk rest _ _ hnot, getD_set_self hlen]
    · exact ih _ _ (List.nodup_cons.mp hnodup).2 hrest (by rw [List.length_set]; exact hlen)

theorem mem_positionsOf {l : List String} {v : String} {i : Nat} :
    i ∈ positionsOf l v ↔ i < l.length ∧ l.getD i "" = v := by
  constructor
  · intro h
    obtain ⟨p, hp, rfl⟩ := List.mem_map.mp h
    have henum := List.mem_of_mem_filter hp
    have hval := List.of_mem_filter hp
    have hget := List.mem_enum_iff_getElem?.mp henum
    have hlt : p.1 < l.length := by
      by_contra hge
      rw [List.getElem?_eq_none (by omega)] at hget
      exact Option.noConfusion hget
    refine ⟨hlt, ?_⟩
    rw [List.getD_eq_getElem?_getD, hget]
    simpa using hval
  · rintro ⟨hlt, hval⟩
    apply List.mem_map.mpr
    refine ⟨(i, l.getD i ""), ?_, rfl⟩
    apply List.mem_filter.mpr
    refine ⟨?_, by simpa using hval⟩
    apply List.mem_enum_iff_getElem?.mpr
    show l[i]? = some (l.getD i "")
    rw [List.getD_eq_getElem l "" hlt]
    exact List.getElem?_eq_getElem hlt

theorem positionsOf_nodup (l : List String) (v : String) : (positionsOf l v).Nodup := by
  unfold positionsOf
  have hsub : ((l.enum.filter (fun p => p.2 = v)).map Prod.fst).Sublist
      (l.enum.map Prod.fst) :=
    List.Sublist.map _ (List.filter_sublist _)
  rw [List.enum_map_fst] at hsub
  exact hsub.nodup (List.nodup_range _)

theorem count_eq_positionsOf_length (l : List String) (v : String) :
    l.count v = (positionsOf l v).length := by
  unfold positionsOf
  rw [List.length_map]
  have h1 : (l.enum.filter (fun p => p.2 = v)).length =
      ((l.enum.map Prod.snd).filter (fun x => decide (x = v))).length := by
    rw [List.filter_map, List.length_map]
    rfl
  rw [h1, List.enum_map_snd]
  rw [List.count, ← List.countP_eq_length_filter]
  apply List.countP_congr
  intro a _
  by_cases h : a = v <;> simp [h]

theorem two_le_count_of_two_positions {l : List String} {v : String} {i j : Nat}
    (hij : i ≠ j) (hi : i ∈ positionsOf l v) (hj : j ∈ positionsOf l v) :
    2 ≤ l.count v := by
  rw [count_eq_positionsOf_length]
  have hnodup := positionsOf_nodup l v
  have hsub : ({i, j} : Finset Nat) ⊆ (positionsOf l v).toFinset := by
    intro x hx
    rw [List.mem_toFinset]
    rcases Finset.mem_insert.mp hx with rfl | hx2
    · exact hi
    · rw [Finset.mem_singleton] at hx2
      subst hx2
      exact hj
  have hcard : ({i, j} : Finset Nat).card = 2 := by
    rw [Finset.card_insert_of_not_mem (by simpa using hij), Finset.card_singleton]
  calc 2 = ({i, j} : Finset Nat).card := hcard.symm
    _ ≤ (positionsOf l v).toFinset.card := Finset.card_le_card hsub
    _ ≤ (positionsOf l v).length := List.toFinset_card_le _

theorem dupLoop_length (colnames : List String) :
    ∀ (keys : List String) (cur : List String),
      (keys.foldl
        (fun cur name =>
          assignMissing (mkDupName (if name = "" then "X" else name)) cur 0
            (positionsOf colnames name)) cur).length = cur.length := by
  intro keys
  induction keys with
  | nil => intro cur; rfl
  | cons k ks ih =>
    intro cur
    rw [List.foldl_cons, ih, assignMissing_length]

theorem dupLoop_pgood (colnames : List String) :
    ∀ (keys : List String) (cur : List String),
      Pgood cur ((keys.map (fun name => positionsOf colnames name)).flatten) →
      Pgood (keys.foldl
        (fun cur name =>
          assignMissing (mkDupName (if name = "" then "X" else name)) cur 0
            (positionsOf colnames name)) cur) [] := by
  intro keys
  induction keys with
  | nil => intro cur h; simpa using h
  | cons k ks ih =>
    intro cur h
    rw [List.foldl_cons]
    apply ih
    apply assignMissing_pgood (mkDupName_injective _)
    simpa using h

theorem dupLoop_getD_not_mem (colnames : List String) :
    ∀ (keys : List String) (cur : List String) {i : Nat},
      (∀ name ∈ keys, i ∉ positionsOf colnames name) →
      (keys.foldl
        (fun cur name =>
          assignMissing (mkDupName (if name = "" then "X" else name)) cur 0
            (positionsOf colnames name)) cur).getD i "" = cur.getD i "" := by
  intro keys
  induction keys with
  | nil => intro cur i _; rfl
  | cons k ks ih =>
    intro cur i hnot
    rw [List.foldl_cons, ih _ (fun name hn => hnot name (by simp [hn])),
      assignMissing_getD_not_mem _ _ _ _ (hnot k (by simp))]

theorem dupLoop_getD_mem (colnames : List String) :
    ∀ (keys : List String) (cur : List String) {i : Nat} {v : String},
      keys.Nodup → v ∈ keys → i ∈ positionsOf colnames v →
      (∀ u ∈ keys, u ≠ v → i ∉ positionsOf colnames u) → i < cur.length →
      ∃ k, (keys.foldl
        (fun cur name =>
          assignMissing (mkDupName (if name = "" then "X" else name)) cur 0
            (positionsOf colnames name)) cur).getD i "" =
        mkDupName (if v = "" then "X" else v) k := by
  intro keys
  induction keys with
  | nil => intro cur i v _ hmem; simp at hmem
  | cons u ks ih =>
    intro cur i v hnodup hmem hpos hother hlen
    rw [List.foldl_cons]
    rcases List.mem_cons.mp hmem with heq | hks
    · subst heq
      obtain ⟨k, hk⟩ := assignMissing_getD_mem (mkDupName_injective _)
        (positionsOf colnames v) cur 0 (positionsOf_nodup _ _) hpos hlen
      refine ⟨k, ?_⟩
      rw [dupLoop_getD_not_mem colnames ks _ ?_, hk]
      intro name hn
      have hvnot : v ∉ ks := (List.nodup_cons.mp hnodup).1
      have hne : name ≠ v := fun hh => hvnot (hh ▸ hn)
      exact hother name (by simp [hn]) hne
    · have hne : u ≠ v := by
        intro hh
        subst hh
        exact (List.nodup_cons.mp hnodup).1 hks
      apply ih _ (List.nodup_cons.mp hnodup).2 hks hpos
        (fun w hw hwv => hother w (by simp [hw]) hwv)
      rw [assignMissing_length]
      exact hlen

/-- Full behavior of `fixColnames`: the result has the same length, is
duplicate-free, synthesizes `X<k>` names exactly at the originally-empty
positions, renames every position of a duplicated name to `<name>_<k>`, and
leaves every other name unchanged. -/
theorem fixColnames_spec (colnames : List String) :
    (fixColnames colnames).Nodup ∧
      (fixColnames colnames).length = colnames.length ∧
      ∀ i, i < colnames.length →
        ((colnames.getD i "" = "" → ∃ k, (fixColnames colnames).getD i "" = mkXName k) ∧
          (colnames.getD i "" ≠ "" → 2 ≤ colnames.count (colnames.getD i "") →
            ∃ k, (fixColnames colnames).getD i "" =
              mkDupName (colnames.getD i "") k) ∧
          (colnames.getD i "" ≠ "" → colnames.count (colnames.getD i "") < 2 →
            (fixColnames colnames).getD i "" = colnames.getD i "")) := by
  have hmemdup : ∀ v, v ∈ stableSort (fun a b => decide (a < b))
      (colnames.dedup.filter (fun n => n ≠ "" ∧ colnames.count n ≥ 2)) ↔
      (v ∈ colnames ∧ v ≠ "" ∧ 2 ≤ colnames.count v) := by
    intro v
    rw [(stableSort_perm _ _).mem_iff, List.mem_filter, List.mem_dedup]
    simp
  have hnodupdup : (stableSort (fun a b => decide (a < b))
      (colnames.dedup.filter (fun n => n ≠ "" ∧ colnames.count n ≥ 2))).Nodup :=
    ((stableSort_perm _ _).nodup_iff).mpr
      ((List.nodup_dedup colnames).filter _)
  have hinit : Pgood colnames (positionsOf colnames "" ++
      ((stableSort (fun a b => decide (a < b))
        (colnames.dedup.filter (fun n => n ≠ "" ∧ colnames.count n ≥ 2))).map
          (fun name => positionsOf colnames name)).flatten) := by
    intro i j hi hj hij heq
    by_cases hv : colnames.getD i "" = ""
    · constructor
      · exact List.mem_append_left _ (mem_positionsOf.mpr ⟨hi, hv⟩)
      · exact List.mem_append_left _ (mem_positionsOf.mpr ⟨hj, heq ▸ hv⟩)
    · have hiP : i ∈ positionsOf colnames (colnames.getD i "") :=
        mem_positionsOf.mpr ⟨hi, rfl⟩
      have hjP : j ∈ positionsOf colnames (colnames.getD i "") :=
        mem_positionsOf.mpr ⟨hj, heq.symm⟩
      have hcount : 2 ≤ colnames.count (colnames.getD i "") :=
        two_le_count_of_two_positions hij hiP hjP
      have hkey : colnames.getD i "" ∈ stableSort (fun a b => decide (a < b))
          (colnames.dedup.filter (fun n => n ≠ "" ∧ colnames.count n ≥ 2)) :=
        (hmemdup _).mpr ⟨getD_mem_of_lt hi, hv, hcount⟩
      have hflat : ∀ p, p ∈ positionsOf colnames (colnames.getD i "") →
          p ∈ ((stableSort (fun a b => decide (a < b))
            (colnames.dedup.filter (fun n => n ≠ "" ∧ colnames.count n ≥ 2))).map
              (fun name => positionsOf colnames name)).flatten := by
        intro p hp
        apply List.mem_flatten.mpr
        exact ⟨positionsOf colnames (colnames.getD i ""),
          List.mem_map_of_mem _ hkey, hp⟩
      exact ⟨List.mem_append_right _ (hflat i hiP), List.mem_append_right _ (hflat j hjP)⟩
  refine ⟨?_, ?_, ?_⟩
  · apply pgood_nil_nodup
    unfold fixColnames
    apply dupLoop_pgood
    apply assignMissing_pgood mkXName_injective
    exact hinit
  · unfold fixColnames
    rw [dupLoop_length, assignMissing_length]
  · intro i hi
    refine ⟨?_, ?_, ?_⟩
    · intro hempty
      unfold fixColnames
      have hnotdup : ∀ name ∈ stableSort (fun a b => decide (a < b))
          (colnames.dedup.filter (fun n => n ≠ "" ∧ colnames.count n ≥ 2)),
          i ∉ positionsOf colnames name := by
        intro name hn hmem
        obtain ⟨-, hval⟩ := mem_positionsOf.mp hmem
        obtain ⟨-, hne, -⟩ := (hmemdup name).mp hn
        exact hne (hval ▸ hempty)
      rw [dupLoop_getD_not_mem _ _ _ hnotdup]
      exact assignMissing_getD_mem mkXName_injective _ _ _
        (positionsOf_nodup _ _) (mem_positionsOf.mpr ⟨hi, hempty⟩) hi
    · intro hne hcount
      unfold fixColnames
      have hstep1 : (assignMissing mkXName colnames 0
          (positionsOf colnames "")).getD i "" = colnames.getD i "" := by
        apply assignMissing_getD_not_mem
        intro hmem
        exact hne (mem_positionsOf.mp hmem).2
      have hkey : colnames.getD i "" ∈ stableSort (fun a b => decide (a < b))
          (colnames.dedup.filter (fun n => n ≠ "" ∧ colnames.count n ≥ 2)) :=
        (hmemdup _).mpr ⟨getD_mem_of_lt hi, hne, hcount⟩
      obtain ⟨k, hk⟩ := dupLoop_getD_mem colnames
        (stableSort (fun a b => decide (a < b))
          (colnames.dedup.filter (fun n => n ≠ "" ∧ colnames.count n ≥ 2)))
        (assignMissing mkXName colnames 0 (positionsOf colnames ""))
        hnodupdup hkey (mem_positionsOf.mpr ⟨hi, rfl⟩)
        (fun u _ huv hmem => huv ((mem_positionsOf.mp hmem).2.symm))
        (by rw [assignMissing_length]; exact hi)
      refine ⟨k, ?_⟩
      rw [hk, if_neg hne]
    · intro hne hcount
      unfold fixColnames
      have hnotdup : ∀ name ∈ stableSort (fun a b => decide (a < b))
          (colnames.dedup.filter (fun n => n ≠ "" ∧ colnames.count n ≥ 2)),
          i ∉ positionsOf colnames name := by
        intro name hn hmem
        obtain ⟨-, hval⟩ := mem_positionsOf.mp hmem
        obtain ⟨-, -, hc⟩ := (hmemdup name).mp hn
        subst hval
        omega
      rw [dupLoop_getD_not_mem _ _ _ hnotdup]
      apply assignMissing_getD_not_mem
      intro hmem
      exact hne (mem_positionsOf.mp hmem).2

theorem map_name_zipWith : ∀ (cols : List GoSeries) (names : List String),
    names.length = cols.length →
    (List.zipWith (fun s n => { s with name := n }) cols names).map (·.name) = names := by
  intro cols
  induction cols with
  | nil =>
    intro names h
    have : names = [] := List.length_eq_zero.mp h
    subst this
    rfl
  | cons c cs ih =>
    intro names h
    cases names with
    | nil => simp at h
    | cons n ns =>
      simp only [List.zipWith_cons_cons, List.map_cons]
      rw [ih ns (by simpa using h)]

theorem dfNames_dfNew (se : List GoSeries) (h : (dfNew se).err = none) :
    dfNames (dfNew se) = fixColnames (se.map (·.name)) := by
  unfold dfNew at h ⊢
  by_cases hse : se.isEmpty
  · rw [if_pos hse] at h
    simp at h
  · rw [if_neg hse] at h ⊢
    dsimp only at h ⊢
    have hnames : (se.map seriesCopy).map (·.name) = se.map (·.name) := by
      rw [List.map_map]
      rfl
    cases hchk : checkColumnsDimensions (se.map seriesCopy) with
    | error e =>
      rw [hchk] at h
      simp at h
    | ok p =>
      obtain ⟨nr, nc⟩ := p
      dsimp only [dfNames]
      rw [map_name_zipWith, hnames]
      rw [(fixColnames_spec _).2.1, hnames, List.length_map, List.length_map]

/-- C7: after successful Table construction (`New`), the column names are
unique; every originally-empty name has been replaced by an `X<k>` name,
every position of a duplicated name by `<name>_<k>`, and every other name is
unchanged — the collision-bumping loop guarantees no synthesized name
collides with any other name (which the uniqueness conjunct expresses). -/
theorem new_unique_colnames (se : List GoSeries) (herr : (dfNew se).err = none) :
    (dfNames (dfNew se)).Nodup ∧
      ∀ i, i < se.length →
        (((se.map (·.name)).getD i "" = "" →
            ∃ k, (dfNames (dfNew se)).getD i "" = mkXName k) ∧
          ((se.map (·.name)).getD i "" ≠ "" →
            2 ≤ (se.map (·.name)).count ((se.map (·.name)).getD i "") →
            ∃ k, (dfNames (dfNew se)).getD i "" =
              mkDupName ((se.map (·.name)).getD i "") k) ∧
          ((se.map (·.name)).getD i "" ≠ "" →
            (se.map (·.name)).count ((se.map (·.name)).getD i "") < 2 →
            (dfNames (dfNew se)).getD i "" = (se.map (·.name)).getD i "")) := by
  rw [dfNames_dfNew se herr]
  obtain ⟨h1, -, h3⟩ := fixColnames_spec (se.map (·.name))
  exact ⟨h1, fun i hi => h3 i (by simpa using hi)⟩

/-- Witness for C7 at a Table built from an unnamed column and two columns
both named `a`: the fixed names are unique. -/
theorem new_unique_colnames_witness :
    (dfNames (dfNew [seriesNew (.ints [1]) .int "", seriesNew (.ints [2]) .int "a",
        seriesNew (.ints [3]) .int "a"])).Nodup ∧
      ∀ i, i < [seriesNew (.ints [1]) .int "", seriesNew (.ints [2]) .int "a",
          seriesNew (.ints [3]) .int "a"].length →
        ((([seriesNew (.ints [1]) .int "", seriesNew (.ints [2]) .int "a",
              seriesNew (.ints [3]) .int "a"].map (·.name)).getD i "" = "" →
            ∃ k, (dfNames (dfNew [seriesNew (.ints [1]) .int "",
              seriesNew (.ints [2]) .int "a",
              seriesNew (.ints [3]) .int "a"])).getD i "" = mkXName k) ∧
          (([seriesNew (.ints [1]) .int "", seriesNew (.ints [2]) .int "a",
              seriesNew (.ints [3]) .int "a"].map (·.name)).getD i "" ≠ "" →
            2 ≤ ([seriesNew (.ints [1]) .int "", seriesNew (.ints [2]) .int "a",
              seriesNew (.ints [3]) .int "a"].map (·.name)).count
                (([seriesNew (.ints [1]) .int "", seriesNew (.ints [2]) .int "a",
                  seriesNew (.ints [3]) .int "a"].map (·.name)).getD i "") →
            ∃ k, (dfNames (dfNew [seriesNew (.ints [1]) .int "",
              seriesNew (.ints [2]) .int "a",
              seriesNew (.ints [3]) .int "a"])).getD i "" =
              mkDupName (([seriesNew (.ints [1]) .int "",
                seriesNew (.ints [2]) .int "a",
                seriesNew (.ints [3]) .int "a"].map (·.name)).getD i "") k) ∧
          (([seriesNew (.ints [1]) .int "", seriesNew (.ints [2]) .int "a",
              seriesNew (.ints [3]) .int "a"].map (·.name)).getD i "" ≠ "" →
            ([seriesNew (.ints [1]) .int "", seriesNew (.ints [2]) .int "a",
              seriesNew (.ints [3]) .int "a"].map (·.name)).count
                (([seriesNew (.ints [1]) .int "", seriesNew (.ints [2]) .int "a",
                  seriesNew (.ints [3]) .int "a"].map (·.name)).getD i "") < 2 →
            (dfNames (dfNew [seriesNew (.ints [1]) .int "",
              seriesNew (.ints [2]) .int "a",
              seriesNew (.ints [3]) .int "a"])).getD i "" =
              ([seriesNew (.ints [1]) .int "", seriesNew (.ints [2]) .int "a",
                seriesNew (.ints [3]) .int "a"].map (·.name)).getD i "")) :=
  new_unique_colnames _ (by decide)

end Gota
